import Mathlib

/-!
# SnowflakeOS window manager (`kernel/src/misc/wm.c`)

A shallow embedding of the rectangle algebra, the clip list, the window
registry, the z-order pass, the damage renderer and the hit test of
`wm.c`, followed by theorems about them.

Conventions of the embedding:

* `uint32_t` values are natural numbers; wherever the C arithmetic can wrap
  the result is reduced with `u32`.  Subtractions and additions that the code
  guards (`split.left - 1` under `split.left > rect.left`, `split.right + 1`
  under `split.right < rect.right`) cannot wrap and are written plainly.
* a `list_t*` is a Lean `List`; a `wm_window_t*` is the window value it
  points to (live windows differ in their id and buffer address).
* `wm.c` holds an unresolved merge in `wm_get_windows_above`,
  `wm_partial_draw_window` and `wm_draw_window`, and neither side is the
  program on its own.
  - In `wm_get_windows_above` the two sides differ in the call that guards
    the loop, and the call is type-correct on neither: `HEAD` writes
    `rect_intersect(win_rect, rect)`, a `rect_t` where a `rect_t*` is
    required, and the incoming side writes `rect_intersect(&win_rect, &rect)`
    with `rect` a `rect_t*`, so that the second argument is the address of a
    pointer.  What the call returns is therefore not fixed by the source.
    `wm_get_windows_above_by` takes the value of the guard as a parameter
    `test`, and what is proved of it holds for every `test`;
    `wm_get_windows_above_guard_incoming` is the incoming call read word by
    word, and `wm_get_windows_above` is the instance with the test that the
    comment of the function documents (the windows above `win` "that overlap
    with it").
  - `wm_partial_draw_window` differs in its clamping.  Both sides are
    embedded, the incoming one as `wm_partial_draw_window` and the other as
    `wm_partial_draw_window_HEAD`; `wm_partial_draw_window_on` selects one by
    a `merge_side`.  The text after the merge (`clip->top`) fits the `HEAD`
    signature and the call `wm_partial_draw_window(win, *clip)` the incoming
    one, so the source favours neither.
  - `wm_draw_window_by` is `wm_draw_window` over a guard `test` and a
    `merge_side`; `wm_draw_window` is its instance with the documented test
    and the incoming clamp (`wm_draw_window_eq_by`).
-/

namespace SnowflakeOS

/-! ## Machine integers -/

/-- Reduction of a natural number to the range of `uint32_t`. -/
def u32 (n : Nat) : Nat := n % 4294967296

/-! ## `kernel/list.h` -/

/-- Modelled from the spec: `list_add` of `kernel/list.h` (not among the
sources) appends at the tail; the z-stack has its frontmost window at the
last index and `wm_raise_window` brings a window there with `list_add`. -/
def list_add {α : Type} (list : List α) (data : α) : List α := list ++ [data]

/-- Modelled from the spec: `list_add_front` of `kernel/list.h` (not among
the sources) inserts at index 0. -/
def list_add_front {α : Type} (list : List α) (data : α) : List α := data :: list

/-- Modelled from the spec: `list_get_at` of `kernel/list.h` (not among the
sources) returns the element at `index`, nothing when out of range. -/
def list_get_at {α : Type} (list : List α) (index : Nat) : Option α := list[index]?

/-- Modelled from the spec: `list_remove_at` of `kernel/list.h` (not among
the sources) unlinks the element at `index`; this is the remaining list (the
unlinked element is `list_get_at list index`). -/
def list_remove_at {α : Type} (list : List α) (index : Nat) : List α := list.eraseIdx index

/-- Modelled from the spec: `list_get_index_of` of `kernel/list.h` (not among
the sources) is the first index holding `data`.  Its value for absent data is
not used: every call site passes a member. -/
def list_get_index_of {α : Type} [DecidableEq α] (list : List α) (data : α) : Nat :=
  list.indexOf data

/-! ## Rectangles -/

/-- The `rect_t` of `wm.c`: inclusive bounds. -/
structure rect_t where
  top : Nat
  left : Nat
  bottom : Nat
  right : Nat
  deriving DecidableEq, Repr

/-- Returns whether two rectangular areas intersect (`rect_intersect`). -/
def rect_intersect (a b : rect_t) : Bool :=
  decide (a.left ≤ b.right) && decide (a.right ≥ b.left) &&
  decide (a.top ≤ b.bottom) && decide (a.bottom ≥ b.top)

/-- Builds a rectangle from its four bounds (`rect_new`). -/
def rect_new (t l b r : Nat) : rect_t := { top := t, left := l, bottom := b, right := r }

/-- Copy of a rectangle (`rect_new_from`). -/
def rect_new_from (r : rect_t) : rect_t := rect_new r.top r.left r.bottom r.right

/-- The working rectangle of `rect_split_by` after the left-edge step. -/
def split_rect1 (rect split : rect_t) : rect_t :=
  if split.left > rect.left ∧ split.left < rect.right then { rect with left := split.left } else rect

/-- The working rectangle of `rect_split_by` after the top-edge step. -/
def split_rect2 (rect split : rect_t) : rect_t :=
  let r1 := split_rect1 rect split
  if split.top > r1.top ∧ split.top < r1.bottom then { r1 with top := split.top } else r1

/-- The working rectangle of `rect_split_by` after the right-edge step. -/
def split_rect3 (rect split : rect_t) : rect_t :=
  let r2 := split_rect2 rect split
  if split.right > r2.left ∧ split.right < r2.right then { r2 with right := split.right } else r2

/-- Splits `rect` into rectangles meant to cover `rect \ split`
(`rect_split_by`): the four edges of `split` are handled in the order left,
top, right, bottom, each step appending a strip and shrinking the working
rectangle. -/
def rect_split_by (rect split : rect_t) : List rect_t :=
  let list0 : List rect_t := []
  -- Split by the left edge
  let list1 :=
    if split.left > rect.left ∧ split.left < rect.right then
      list_add list0 (rect_new rect.top rect.left rect.bottom (split.left - 1))
    else list0
  let r1 := split_rect1 rect split
  -- Split by the top edge
  let list2 :=
    if split.top > r1.top ∧ split.top < r1.bottom then
      list_add list1 (rect_new r1.top r1.left (split.top - 1) r1.right)
    else list1
  let r2 := split_rect2 rect split
  -- Split by the right edge
  let list3 :=
    if split.right > r2.left ∧ split.right < r2.right then
      list_add list2 (rect_new r2.top (split.right + 1) r2.bottom r2.right)
    else list2
  let r3 := split_rect3 rect split
  -- Split by the bottom edge
  if split.bottom > r3.top ∧ split.bottom < r3.bottom then
    list_add list3 (rect_new (split.bottom + 1) r3.left r3.bottom r3.right)
  else list3

/-! ## Clip lists -/

/-- The loop of `rect_subtract_clip_rect`.  `i` is the `uint32_t` loop index;
the assignment `i = n_splits + i - 1` and the increment of the `for` are both
reduced modulo 2^32, as in C.  `fuel` bounds the number of iterations. -/
def rect_subtract_clip_rect_loop (clip : rect_t) : Nat → List rect_t → Nat → List rect_t
  | 0, rects, _ => rects
  | fuel + 1, rects, i =>
    if i < rects.length then
      match list_get_at rects i with
      | none => rects
      | some current =>
        if rect_intersect current clip then
          let splits := rect_split_by current clip
          let n_splits := splits.length
          -- while (splits->count) list_add_front(rects, list_remove_at(splits, 0));
          let rects1 := splits.foldl list_add_front (list_remove_at rects i)
          -- i = n_splits + i - 1, then the i++ of the loop
          let i1 := u32 (n_splits + i + 4294967295)
          rect_subtract_clip_rect_loop clip fuel rects1 (u32 (i1 + 1))
        else
          rect_subtract_clip_rect_loop clip fuel rects (u32 (i + 1))
    else rects

/-- Removes `clip` from the union of `rects` by splitting the members that
intersect it (`rect_subtract_clip_rect`).  Every iteration of the loop
shortens the unvisited part of the list by one, so `rects.length` iterations
are enough (`rect_subtract_clip_rect_eq_acc`). -/
def rect_subtract_clip_rect (rects : List rect_t) (clip : rect_t) : List rect_t :=
  rect_subtract_clip_rect_loop clip rects.length rects 0

/-- Adds a clipping rectangle to the area spanned by `rects`
(`rect_add_clip_rect`): subtract it, then put it at the front. -/
def rect_add_clip_rect (rects : List rect_t) (clip : rect_t) : List rect_t :=
  let r := rect_new_from clip
  list_add_front (rect_subtract_clip_rect rects clip) r

/-- Empties the list (`rect_clear_clipped`). -/
def rect_clear_clipped (_rects : List rect_t) : List rect_t := []

/-! ## Windows -/

/-- The fields of `fb_t` (declared in a header that is not among the sources)
that `wm.c` reads. -/
structure fb_t where
  address : Nat
  width : Nat
  height : Nat
  pitch : Nat
  bpp : Nat
  deriving DecidableEq, Repr

/-- The fields of `wm_window_t` (declared in `kernel/wm.h`, not among the
sources) that `wm.c` reads and writes. -/
structure wm_window_t where
  ufb : fb_t
  kfb : fb_t
  id : Nat
  flags : Nat
  x : Nat
  y : Nat
  deriving DecidableEq, Repr

/-- Modelled from the spec: the placement flag `WM_BACKGROUND` of
`kernel/wm.h` (not among the sources), one bit of `flags`. -/
def WM_BACKGROUND : Nat := 1

/-- Modelled from the spec: the placement flag `WM_FOREGROUND` of
`kernel/wm.h` (not among the sources), a bit of `flags` other than
`WM_BACKGROUND`. -/
def WM_FOREGROUND : Nat := 2

/-- The rectangle spanned by a window (`rect_from_window_val`, and
`rect_from_window`, which computes the same on the heap); `uint32_t`
arithmetic. -/
def rect_from_window_val (win : wm_window_t) : rect_t :=
  { top := win.y,
    left := win.x,
    bottom := u32 (win.y + win.kfb.height + 4294967295),
    right := u32 (win.x + win.kfb.width + 4294967295) }

/-- The windows above `win` that overlap with it (`wm_get_windows_above`, as
its comment documents it): the loop runs over the indices after that of `win`
and puts each overlapping window at the front of the result.  The guard here,
`rect_intersect` of the rectangle of `win` and that of `next`, is what the
comment of the function asks for; the source writes the call differently on
the two sides of its unresolved merge and type-correct on neither, and
`wm_get_windows_above_by` is the loop with the value of the guard left open. -/
def wm_get_windows_above (windows : List wm_window_t) (win : wm_window_t) : List wm_window_t :=
  let idx := list_get_index_of windows win
  let win_rect := rect_from_window_val win
  (windows.drop (idx + 1)).foldl
    (fun list next =>
      if rect_intersect win_rect (rect_from_window_val next) then list_add_front list next
      else list)
    []

/-- The rectangle `wm_partial_draw_window` copies to the framebuffer, rows
`top..bottom` and columns `left..right`, after its clamping (the incoming
side of the merge, which takes `clip` by value). -/
def wm_partial_draw_window (win : wm_window_t) (clip : rect_t) : rect_t :=
  let win_rect := rect_from_window_val win
  let clip1 := if clip.top < win.y then { clip with top := win_rect.top } else clip
  let clip2 := if clip1.left < win.x then { clip1 with left := win_rect.left } else clip1
  let clip3 :=
    if clip2.bottom > u32 (win.y + win.kfb.height) then { clip2 with bottom := win_rect.bottom }
    else clip2
  if clip3.right > u32 (win.x + win.kfb.width) then { clip3 with right := win_rect.right }
  else clip3

/-- The rectangle copied by the `HEAD` side of `wm_partial_draw_window`, for
a non-null `clip`. -/
def wm_partial_draw_window_HEAD (win : wm_window_t) (clip : rect_t) : rect_t :=
  let clip1 := if clip.top > win.y then { clip with top := win.y } else clip
  let clip2 := if clip1.left < win.x then { clip1 with left := win.x } else clip1
  let clip3 :=
    if clip2.bottom > u32 (win.y + win.kfb.height) then
      { clip2 with bottom := u32 (win.y + win.kfb.height) }
    else clip2
  if clip3.right > u32 (win.x + win.kfb.width) then
    { clip3 with right := u32 (win.x + win.kfb.width) }
  else clip3

/-- The clip list of `wm_draw_window` once every covering window has been
subtracted from the damage rectangle, the covering windows being those of
`wm_get_windows_above` with the documented guard. -/
def wm_draw_window_clip_rects (windows : List wm_window_t) (win : wm_window_t)
    (rect : rect_t) : List rect_t :=
  let clip_windows := wm_get_windows_above windows win
  let clip_rects := rect_add_clip_rect [] rect
  -- while (clip_windows->count) { cw = list_remove_at(clip_windows, 0); ... }
  clip_windows.foldl (fun rects cw => rect_subtract_clip_rect rects (rect_from_window_val cw))
    clip_rects

/-- The rectangles `wm_draw_window` copies to the framebuffer, in order
(`wm_draw_window`): nothing when the damage misses the window, otherwise one
`wm_partial_draw_window` per member of the clip list.  This is the instance
with the documented guard in `wm_get_windows_above` and the clamping of the
incoming side; `wm_draw_window_by` leaves both open. -/
def wm_draw_window (windows : List wm_window_t) (win : wm_window_t) (rect : rect_t) :
    List rect_t :=
  let win_rect := rect_from_window_val win
  if !rect_intersect win_rect rect then []
  else (wm_draw_window_clip_rects windows win rect).map (wm_partial_draw_window win)

/-! ### The unresolved merge

The definitions below follow the text of `wm.c` where the two sides of the
merge disagree: the value of the guard in the loop of `wm_get_windows_above`
is a parameter, and the clamping of `wm_partial_draw_window` is chosen by a
`merge_side`. -/

/-- The two sides of the unresolved merge in `wm.c`: the text between
`<<<<<<< HEAD` and `=======`, and the text between `=======` and `>>>>>>>`. -/
inductive merge_side where
  | HEAD
  | incoming
  deriving DecidableEq, Repr

/-- The guard of the loop of `wm_get_windows_above` as the incoming side of
the merge writes it, `rect_intersect(&win_rect, &rect)`, read word by word.
`rect` is a `rect_t*` there, so the second argument is the address of that
pointer variable, and the four `uint32_t` words `rect_intersect` reads through
it are the value of the pointer, `rect_ptr` (the address `rect_from_window`
obtained from `kmalloc`; a pointer is one word on the 32-bit target of the
kernel), in the place of `top`, followed by three words `w1`, `w2`, `w3` of
the frame in the places of `left`, `bottom` and `right`.  The rectangle of
`next` is not read.  C does not define this read; the general statements are
therefore proved for every value of the guard (`wm_get_windows_above_by`), and
this definition serves to evaluate the call as it is written. -/
def wm_get_windows_above_guard_incoming (win_rect : rect_t) (rect_ptr w1 w2 w3 : Nat) : Bool :=
  rect_intersect win_rect { top := rect_ptr, left := w1, bottom := w2, right := w3 }

/-- The loop of `wm_get_windows_above` over the windows from index `i` on:
`next` is the window at index `i` and `test i next` the value of the
`rect_intersect` call that guards `list_add_front(list, next)` in that
iteration.  The call is the text on which the two sides of the merge differ,
so its value is a parameter. -/
def wm_get_windows_above_loop (test : Nat → wm_window_t → Bool) :
    List wm_window_t → Nat → List wm_window_t → List wm_window_t
  | [], _, list => list
  | next :: rest, i, list =>
    wm_get_windows_above_loop test rest (i + 1)
      (if test i next then list_add_front list next else list)

/-- The list `wm_get_windows_above` returns when the guard of its loop takes
the values `test`: the loop starts at the index after that of `win` with an
empty list. -/
def wm_get_windows_above_by (test : Nat → wm_window_t → Bool) (windows : List wm_window_t)
    (win : wm_window_t) : List wm_window_t :=
  let idx := list_get_index_of windows win
  wm_get_windows_above_loop test (windows.drop (idx + 1)) (idx + 1) []

/-- The rectangle `wm_partial_draw_window` copies, on the given side of the
merge. -/
def wm_partial_draw_window_on (side : merge_side) (win : wm_window_t) (clip : rect_t) : rect_t :=
  match side with
  | .HEAD => wm_partial_draw_window_HEAD win clip
  | .incoming => wm_partial_draw_window win clip

/-- The clip list of `wm_draw_window` once every window returned by
`wm_get_windows_above` has been subtracted from the damage rectangle, for a
guard that takes the values `test`. -/
def wm_draw_window_clip_rects_by (test : Nat → wm_window_t → Bool) (windows : List wm_window_t)
    (win : wm_window_t) (rect : rect_t) : List rect_t :=
  let clip_windows := wm_get_windows_above_by test windows win
  let clip_rects := rect_add_clip_rect [] rect
  -- while (clip_windows->count) { cw = list_remove_at(clip_windows, 0); ... }
  clip_windows.foldl (fun rects cw => rect_subtract_clip_rect rects (rect_from_window_val cw))
    clip_rects

/-- The rectangles `wm_draw_window` copies to the framebuffer, in order, for a
guard that takes the values `test` in `wm_get_windows_above` and the clamping
of the given side of the merge in `wm_partial_draw_window`. -/
def wm_draw_window_by (test : Nat → wm_window_t → Bool) (side : merge_side)
    (windows : List wm_window_t) (win : wm_window_t) (rect : rect_t) : List rect_t :=
  let win_rect := rect_from_window_val win
  if !rect_intersect win_rect rect then []
  else (wm_draw_window_clip_rects_by test windows win rect).map (wm_partial_draw_window_on side win)

/-! ## Registry and z-order -/

/-- The static state of `wm.c`: `id_count`, `windows`, `screen_fb`, `fb`. -/
structure wm_state where
  id_count : Nat
  windows : List wm_window_t
  screen_fb : fb_t
  fb : fb_t
  deriving DecidableEq, Repr

/-- The state set up by `init_wm`: `info` is what `fb_get_info` returns and
`addr` what `kamalloc` returns. -/
def init_wm (info : fb_t) (addr : Nat) : wm_state :=
  { id_count := 0, windows := [], screen_fb := info, fb := { info with address := addr } }

/-- Lookup of a window by id (`wm_get_window`): the first match. -/
def wm_get_window (windows : List wm_window_t) (id : Nat) : Option wm_window_t :=
  windows.find? (fun win => decide (win.id = id))

/-- The value of a `uint32_t` converted to `int`. -/
def int_of_u32 (n : Nat) : Int :=
  if n < 2147483648 then (n : Int) else (n : Int) - 4294967296

/-- Initial placement (`wm_assign_position`); `r1` and `r2` are the two
values returned by `rand()`.  The remainder of a division by zero has no
value. -/
def wm_assign_position (fb : fb_t) (win : wm_window_t) (r1 r2 : Nat) : Option wm_window_t :=
  if win.kfb.width = fb.width then some { win with x := 0, y := 0 }
  else
    let max_x : Int := int_of_u32 (u32 (fb.width + (4294967296 - u32 win.ufb.width)))
    let max_y : Int := int_of_u32 (u32 (fb.height + (4294967296 - u32 win.ufb.height)))
    if max_x = 0 then none
    else if max_y = 0 then none
    else some { win with x := r1 % max_x.natAbs, y := r2 % max_y.natAbs }

/-- The loop of `wm_assign_z_orders`; `i` is the `uint32_t` loop index and
`fuel` bounds the number of iterations. -/
def wm_assign_z_orders_loop : Nat → List wm_window_t → Nat → List wm_window_t
  | 0, windows, _ => windows
  | fuel + 1, windows, i =>
    if i < windows.length then
      match list_get_at windows i with
      | none => windows
      | some win =>
        if win.flags &&& WM_BACKGROUND ≠ 0 ∧ i ≠ 0 then
          wm_assign_z_orders_loop fuel (list_add_front (list_remove_at windows i) win) (u32 (i + 1))
        else if win.flags &&& WM_FOREGROUND ≠ 0 then
          wm_assign_z_orders_loop fuel (list_add (list_remove_at windows i) win) (u32 (i + 1))
        else
          wm_assign_z_orders_loop fuel windows (u32 (i + 1))
    else windows

/-- Makes sure that z-level related flags are respected
(`wm_assign_z_orders`).  The list keeps its length and the index grows by one
per iteration, so `windows.length` iterations are all the loop makes. -/
def wm_assign_z_orders (windows : List wm_window_t) : List wm_window_t :=
  wm_assign_z_orders_loop windows.length windows 0

/-- Opening of a window (`wm_open_window`): the new state and the returned
id.  `addr` is the address `kmalloc` returns for the kernel buffer, `r1` and
`r2` the values `rand()` returns during the placement. -/
def wm_open_window (s : wm_state) (buff : fb_t) (flags : Nat) (addr r1 r2 : Nat) :
    Option (wm_state × Nat) :=
  let win : wm_window_t :=
    { ufb := buff, kfb := { buff with address := addr }, id := s.id_count, flags := flags,
      x := 0, y := 0 }
  match wm_assign_position s.fb win r1 r2 with
  | none => none
  | some placed =>
    some ({ s with id_count := u32 (s.id_count + 1),
                   windows := wm_assign_z_orders (list_add s.windows placed) }, placed.id)

/-- Closing of a window (`wm_close_window`), as far as the registry goes: the
screen refresh that follows does not touch it. -/
def wm_close_window (s : wm_state) (win_id : Nat) : wm_state :=
  match wm_get_window s.windows win_id with
  | some win =>
    let idx := list_get_index_of s.windows win
    { s with windows := wm_assign_z_orders (list_remove_at s.windows idx) }
  | none => { s with windows := wm_assign_z_orders s.windows }

/-- Puts `win` at the highest z-level (`wm_raise_window`).  There is no value
when `win` is not in the list. -/
def wm_raise_window (windows : List wm_window_t) (win : wm_window_t) :
    Option (List wm_window_t) :=
  let idx := list_get_index_of windows win
  match list_get_at windows idx with
  | some removed => some (list_add (list_remove_at windows idx) removed)
  | none => none

/-! ## Hit test -/

/-- The test `wm_window_clicked` applies to a window. -/
def wm_window_clicked_test (w : wm_window_t) (x y : Nat) : Bool :=
  decide (x ≥ w.x) && decide (x ≤ u32 (w.x + w.kfb.width)) &&
  decide (y ≥ w.y) && decide (y ≤ u32 (w.y + w.kfb.height))

/-- The loop of `wm_window_clicked`, from index `n - 1` down to 0. -/
def wm_window_clicked_loop (windows : List wm_window_t) (x y : Nat) : Nat → Option wm_window_t
  | 0 => none
  | z + 1 =>
    match list_get_at windows z with
    | none => none
    | some w =>
      if wm_window_clicked_test w x y then some w
      else wm_window_clicked_loop windows x y z

/-- The window under the point `(x, y)` (`wm_window_clicked`).  The index is
an `int32_t` set to `windows->count - 1`, negative from the start when the
count exceeds 2^31. -/
def wm_window_clicked (windows : List wm_window_t) (x y : Nat) : Option wm_window_t :=
  if windows.length ≤ 2147483648 then wm_window_clicked_loop windows x y windows.length
  else none

/-! ## Vocabulary of the properties -/

/-- A rectangle is well formed: `top ≤ bottom` and `left ≤ right`. -/
def rect_wf (r : rect_t) : Prop := r.top ≤ r.bottom ∧ r.left ≤ r.right

instance (r : rect_t) : Decidable (rect_wf r) := by unfold rect_wf; infer_instance

/-- The pixel at row `py`, column `px` lies in the rectangle (bounds
inclusive). -/
def rect_has_pixel (r : rect_t) (py px : Nat) : Prop :=
  r.top ≤ py ∧ py ≤ r.bottom ∧ r.left ≤ px ∧ px ≤ r.right

instance (r : rect_t) (py px : Nat) : Decidable (rect_has_pixel r py px) := by
  unfold rect_has_pixel; infer_instance

/-- Rectangle `a` lies within rectangle `b`. -/
def rect_within (a b : rect_t) : Prop :=
  b.top ≤ a.top ∧ b.left ≤ a.left ∧ a.bottom ≤ b.bottom ∧ a.right ≤ b.right

instance (a b : rect_t) : Decidable (rect_within a b) := by unfold rect_within; infer_instance

/-! ## Closed form of the subtraction and reachable clip lists -/

/-- The result of the loop of `rect_subtract_clip_rect` in accumulator form:
`done` is the part of the list before the loop index, `todo` the part from
the index on.  A member that intersects `clip` is replaced by its pieces, put
at the front in reverse order; another member joins the visited part
(`rect_subtract_clip_rect_eq_acc` relates it to the loop). -/
def rect_subtract_acc (clip : rect_t) : List rect_t → List rect_t → List rect_t
  | done, [] => done
  | done, m :: todo =>
    if rect_intersect m clip then
      rect_subtract_acc clip ((rect_split_by m clip).reverse ++ done) todo
    else rect_subtract_acc clip (done ++ [m]) todo

/-- The clip lists obtained from the empty list by `rect_add_clip_rect` and
`rect_subtract_clip_rect` calls with well-formed rectangles.  A `list_t`
counts its nodes in a `uint32_t` and the loop index is a `uint32_t`: each
call is made on a list of fewer than 2^30 members, which keeps both from
wrapping (a call leaves at most four times as many members). -/
inductive clip_list_reachable : List rect_t → Prop where
  | empty : clip_list_reachable []
  | add (rects : List rect_t) (clip : rect_t) : clip_list_reachable rects → rect_wf clip →
      rects.length < 1073741824 → clip_list_reachable (rect_add_clip_rect rects clip)
  | subtract (rects : List rect_t) (clip : rect_t) : clip_list_reachable rects → rect_wf clip →
      rects.length < 1073741824 → clip_list_reachable (rect_subtract_clip_rect rects clip)

/-! ## Calls on the registry and example data -/

/-- A call on the window registry: `wm_open_window` with what it gets from its
collaborators, `wm_close_window`, `wm_raise_window`. -/
inductive wm_call where
  | wm_open (buff : fb_t) (flags addr r1 r2 : Nat)
  | wm_close (win_id : Nat)
  | wm_raise (win : wm_window_t)
  deriving DecidableEq, Repr

/-- The registry after one call, when the call has a result. -/
def wm_step (s : wm_state) : wm_call → Option wm_state
  | .wm_open buff flags addr r1 r2 => (wm_open_window s buff flags addr r1 r2).map Prod.fst
  | .wm_close win_id => some (wm_close_window s win_id)
  | .wm_raise win => (wm_raise_window s.windows win).map (fun ws => { s with windows := ws })

/-- The registry after a sequence of calls. -/
def wm_run (s : wm_state) : List wm_call → Option wm_state
  | [] => some s
  | c :: cs => (wm_step s c).bind (fun s1 => wm_run s1 cs)

/-- A window `w` columns wide and `h` rows high at column `x`, row `y`, with
32-bit pixels. -/
def window_at (id flags x y w h : Nat) : wm_window_t :=
  { ufb := { address := 0, width := w, height := h, pitch := 4 * w, bpp := 32 },
    kfb := { address := 0, width := w, height := h, pitch := 4 * w, bpp := 32 },
    id := id, flags := flags, x := x, y := y }

/-- A 100 x 100 screen with 32-bit pixels. -/
def screen_100 : fb_t := { address := 0, width := 100, height := 100, pitch := 400, bpp := 32 }

/-- A 10 x 10 client buffer with 32-bit pixels. -/
def buffer_10 : fb_t := { address := 0, width := 10, height := 10, pitch := 40, bpp := 32 }

/-! ## The subtraction in the words of the specification -/

/-- The subtraction as the specification words it: every member that
intersects `clip` is replaced, in place, by the rectangles of its split; the
other members are left as they are. -/
def rect_subtract_spec (rects : List rect_t) (clip : rect_t) : List rect_t :=
  rects.flatMap (fun m => if rect_intersect m clip then rect_split_by m clip else [m])

/-! ## Identifiers along a sequence of calls -/

/-- Number of `wm_open_window` calls in a sequence of calls. -/
def wm_open_count : List wm_call → Nat
  | [] => 0
  | .wm_open _ _ _ _ _ :: cs => wm_open_count cs + 1
  | .wm_close _ :: cs => wm_open_count cs
  | .wm_raise _ :: cs => wm_open_count cs

/-- The state of the ids after `n` opens: `id_count` is `n` reduced to a
`uint32_t`, the ids of the windows are below `n` and pairwise distinct. -/
def wm_ids_fresh (s : wm_state) (n : Nat) : Prop :=
  s.id_count = u32 n ∧ (∀ w ∈ s.windows, w.id < n) ∧ (s.windows.map (fun w => w.id)).Nodup

/-! ## More example data -/

/-- The window `wm_open_window` builds from the 10 x 10 client buffer: kernel
buffer at `addr`, placed at column `x`, row `y`. -/
def opened_window (id flags addr x y : Nat) : wm_window_t :=
  { ufb := buffer_10, kfb := { buffer_10 with address := addr }, id := id, flags := flags,
    x := x, y := y }

/-- The registry on the 100 x 100 screen with the given `id_count` and
windows. -/
def registry_100 (id_count : Nat) (windows : List wm_window_t) : wm_state :=
  { id_count := id_count, windows := windows, screen_fb := screen_100,
    fb := { screen_100 with address := 0 } }

/-- The calls of `n` rounds, each opening a 10 x 10 window and closing it again
by its id; the ids run from `c`. -/
def open_close_rounds : Nat → Nat → List wm_call
  | 0, _ => []
  | n + 1, c =>
    .wm_open buffer_10 0 8192 0 0 :: .wm_close c :: open_close_rounds n (c + 1)

/-- A sequence of calls that takes `id_count` once around the `uint32_t` range:
a window is opened and left open (id 0), then 2^32 - 1 further windows are
opened and closed one after the other (ids 1 to 2^32 - 1). -/
def id_wrap_prefix : List wm_call :=
  .wm_open buffer_10 0 4096 0 0 :: open_close_rounds 4294967295 1

/-- The calls of `id_wrap_prefix` followed by one more open. -/
def id_wrap_calls : List wm_call :=
  id_wrap_prefix ++ [.wm_open buffer_10 0 12288 0 0]

end SnowflakeOS

namespace SnowflakeOS

/-! ## Lemmas on lists -/

/-- A member splits the list at its first occurrence, whose index is what
`List.indexOf` returns. -/
theorem indexOf_split {α : Type} [DecidableEq α] (w : α) :
    ∀ l : List α, w ∈ l →
      ∃ pre post, l = pre ++ w :: post ∧ w ∉ pre ∧ l.indexOf w = pre.length := by
  intro l
  induction l with
  | nil => intro h; simp at h
  | cons a t ih =>
    intro h
    by_cases ha : a = w
    · subst ha
      exact ⟨[], t, by simp, by simp, by simp⟩
    · have ht : w ∈ t := by
        rcases List.mem_cons.mp h with h1 | h1
        · exact absurd h1.symm ha
        · exact h1
      obtain ⟨pre, post, h1, h2, h3⟩ := ih ht
      refine ⟨a :: pre, post, by simp [h1], ?_, ?_⟩
      · simp only [List.mem_cons, not_or]
        exact ⟨fun h => ha h.symm, h2⟩
      · rw [List.indexOf_cons_ne _ ha, h3]; rfl

/-- The element after a prefix is at the index given by the length of the prefix. -/
theorem get_at_middle {α : Type} (pre post : List α) (w : α) :
    list_get_at (pre ++ w :: post) pre.length = some w := by
  induction pre with
  | nil => simp [list_get_at]
  | cons a t ih => simpa [list_get_at] using ih

/-- Removal of the element after a prefix. -/
theorem remove_at_middle {α : Type} (pre post : List α) (w : α) :
    list_remove_at (pre ++ w :: post) pre.length = pre ++ post := by
  induction pre with
  | nil => simp [list_remove_at]
  | cons a t ih => simpa [list_remove_at] using ih

/-- The part of a list after the element that follows a prefix. -/
theorem drop_succ_middle {α : Type} (pre post : List α) (w : α) :
    (pre ++ w :: post).drop (pre.length + 1) = post := by
  simp

/-- Putting the elements of a list at the front one by one reverses them. -/
theorem foldl_list_add_front {α : Type} (l init : List α) :
    l.foldl list_add_front init = l.reverse ++ init := by
  induction l generalizing init with
  | nil => rfl
  | cons a t ih => simp [List.foldl, ih, list_add_front]

/-- The index `list_get_index_of` returns for the first occurrence of a window. -/
theorem indexOf_middle (pre post : List wm_window_t) (A : wm_window_t) (hA : A ∉ pre) :
    list_get_index_of (pre ++ A :: post) A = pre.length := by
  unfold list_get_index_of
  rw [List.indexOf_append_of_not_mem hA]
  simp

/-! ## Lemmas on rectangles -/

/-- Two rectangles do not intersect when one lies wholly on one side of the other. -/
theorem rect_intersect_eq_false (a b : rect_t) :
    rect_intersect a b = false ↔
      (b.right < a.left ∨ a.right < b.left ∨ b.bottom < a.top ∨ a.bottom < b.top) := by
  unfold rect_intersect
  simp only [Bool.and_eq_false_iff, decide_eq_false_iff_not, not_le, ge_iff_le]
  tauto

/-- The intersection test does not depend on the order of its arguments. -/
theorem rect_intersect_comm (a b : rect_t) : rect_intersect a b = rect_intersect b a := by
  unfold rect_intersect
  simp only [ge_iff_le]
  cases decide (a.left ≤ b.right) <;> cases decide (b.left ≤ a.right) <;>
    cases decide (a.top ≤ b.bottom) <;> cases decide (b.top ≤ a.bottom) <;> rfl

/-- Being disjoint is a symmetric relation. -/
theorem rect_disjoint_symm : Symmetric (fun a b : rect_t => rect_intersect a b = false) := by
  intro a b h
  rw [rect_intersect_comm]
  exact h

/-- A rectangle within one that misses `r` misses `r`. -/
theorem rect_intersect_of_within (p m r : rect_t) (hp : rect_within p m)
    (h : rect_intersect m r = false) : rect_intersect p r = false := by
  rw [rect_intersect_eq_false] at *
  unfold rect_within at hp
  omega

/-- A well-formed rectangle within another one intersects it. -/
theorem rect_intersect_of_wf_within (m c : rect_t) (hm : rect_wf m) (h : rect_within m c) :
    rect_intersect m c = true := by
  unfold rect_intersect rect_wf rect_within at *
  simp only [Bool.and_eq_true, decide_eq_true_eq, ge_iff_le]
  omega

/-- Containment of rectangles is transitive. -/
theorem rect_within_trans (a b c : rect_t) (h1 : rect_within a b) (h2 : rect_within b c) :
    rect_within a c := by
  unfold rect_within at *
  omega

/-- A copy of a rectangle is that rectangle. -/
theorem rect_new_from_eq (r : rect_t) : rect_new_from r = r := rfl

/-- The split emits at most four strips. -/
theorem rect_split_by_length_le (m c : rect_t) : (rect_split_by m c).length ≤ 4 := by
  unfold rect_split_by list_add
  simp only []
  split_ifs <;> simp

/-- Every strip lies within the original and misses the cut; it is well formed
when the original is. -/
theorem rect_split_by_mem (m c p : rect_t) (hp : p ∈ rect_split_by m c) :
    rect_within p m ∧ rect_intersect p c = false ∧ (rect_wf m → rect_wf p) := by
  rw [rect_intersect_eq_false]
  unfold rect_wf rect_within
  unfold rect_split_by split_rect3 split_rect2 split_rect1 list_add rect_new at hp
  simp only [] at hp
  split_ifs at hp <;> simp at hp <;> (try rcases hp with hp | hp | hp | hp) <;>
    subst_vars <;> simp_all <;> omega

/-- The strips of a split are pairwise disjoint. -/
theorem rect_split_by_pairwise (m c : rect_t) :
    (rect_split_by m c).Pairwise (fun a b => rect_intersect a b = false) := by
  unfold rect_split_by split_rect3 split_rect2 split_rect1 list_add rect_new
  simp only []
  split_ifs <;> simp_all [rect_intersect_eq_false] <;> omega

/-- No strip is emitted when the cut contains the original. -/
theorem rect_split_by_of_within (m c : rect_t) (h : rect_within m c) : rect_split_by m c = [] := by
  unfold rect_within at h
  unfold rect_split_by split_rect3 split_rect2 split_rect1 list_add rect_new
  simp only []
  split_ifs <;> simp_all <;> omega

/-! ## The loop of `rect_subtract_clip_rect` -/

/-- With the index at the end of the visited part, enough fuel and no wrap of the
index, the loop computes the accumulator form. -/
theorem rect_subtract_clip_rect_loop_eq_acc (clip : rect_t) :
    ∀ (fuel : Nat) (todo done : List rect_t), todo.length ≤ fuel →
      done.length + 4 * todo.length < 4294967296 →
      rect_subtract_clip_rect_loop clip fuel (done ++ todo) done.length
        = rect_subtract_acc clip done todo := by
  intro fuel
  induction fuel with
  | zero =>
    intro todo done h _
    have : todo = [] := List.length_eq_zero.mp (Nat.le_zero.mp h)
    subst this
    simp [rect_subtract_clip_rect_loop, rect_subtract_acc]
  | succ fuel ih =>
    intro todo done h hcap
    cases todo with
    | nil => simp [rect_subtract_clip_rect_loop, rect_subtract_acc]
    | cons m rest =>
      have hlen : done.length < (done ++ m :: rest).length := by simp
      have hn := rect_split_by_length_le m clip
      simp only [List.length_cons] at h hcap
      unfold rect_subtract_clip_rect_loop
      rw [if_pos hlen, get_at_middle]
      simp only [remove_at_middle, foldl_list_add_front]
      by_cases hi : rect_intersect m clip = true
      · rw [if_pos hi]
        have hidx : u32 (u32 ((rect_split_by m clip).length + done.length + 4294967295) + 1)
            = ((rect_split_by m clip).reverse ++ done).length := by
          simp only [u32, List.length_append, List.length_reverse]
          omega
        rw [hidx, ← List.append_assoc]
        rw [ih rest _ (by omega) (by simp; omega)]
        simp [rect_subtract_acc, hi]
      · rw [if_neg hi]
        have hidx : u32 (done.length + 1) = (done ++ [m]).length := by
          simp only [u32, List.length_append, List.length_singleton]
          omega
        have happ : done ++ m :: rest = (done ++ [m]) ++ rest := by simp
        rw [hidx, happ, ih rest _ (by omega) (by simp; omega)]
        simp [rect_subtract_acc, hi]

/-- The subtraction is its accumulator form on a list of fewer than 2^30 members:
`rects.length` iterations are enough and the index does not wrap. -/
theorem rect_subtract_clip_rect_eq_acc (rects : List rect_t) (clip : rect_t)
    (hcap : rects.length < 1073741824) :
    rect_subtract_clip_rect rects clip = rect_subtract_acc clip [] rects := by
  have h := rect_subtract_clip_rect_loop_eq_acc clip rects.length rects [] (le_refl _)
    (by simp; omega)
  simpa [rect_subtract_clip_rect] using h

/-- After the subtraction no member intersects the clip. -/
theorem rect_subtract_acc_no_clip (clip : rect_t) :
    ∀ (todo done : List rect_t), (∀ d ∈ done, rect_intersect d clip = false) →
      ∀ r ∈ rect_subtract_acc clip done todo, rect_intersect r clip = false := by
  intro todo
  induction todo with
  | nil => intro done hd r hr; exact hd r (by simpa [rect_subtract_acc] using hr)
  | cons m rest ih =>
    intro done hd r hr
    unfold rect_subtract_acc at hr
    by_cases hi : rect_intersect m clip = true
    · rw [if_pos hi] at hr
      refine ih _ ?_ r hr
      intro d hmem
      rcases List.mem_append.mp hmem with h1 | h1
      · exact (rect_split_by_mem m clip d (List.mem_reverse.mp h1)).2.1
      · exact hd d h1
    · rw [if_neg hi] at hr
      refine ih _ ?_ r hr
      intro d hmem
      rcases List.mem_append.mp hmem with h1 | h1
      · exact hd d h1
      · rw [List.mem_singleton.mp h1]
        simpa using hi

/-- The subtraction keeps the members pairwise disjoint. -/
theorem rect_subtract_acc_pairwise (clip : rect_t) :
    ∀ (todo done : List rect_t),
      (done ++ todo).Pairwise (fun a b => rect_intersect a b = false) →
      (rect_subtract_acc clip done todo).Pairwise (fun a b => rect_intersect a b = false) := by
  intro todo
  induction todo with
  | nil => intro done h; simpa [rect_subtract_acc] using h
  | cons m rest ih =>
    intro done h
    unfold rect_subtract_acc
    by_cases hi : rect_intersect m clip = true
    · rw [if_pos hi]
      apply ih
      have hperm : (done ++ m :: rest).Perm (m :: (done ++ rest)) := List.perm_middle
      have h1 := (hperm.pairwise_iff (fun {a b} h => rect_disjoint_symm h)).mp h
      rw [List.pairwise_cons] at h1
      rw [List.append_assoc, List.pairwise_append]
      refine ⟨?_, h1.2, ?_⟩
      · rw [List.pairwise_reverse]
        exact (rect_split_by_pairwise m clip).imp (fun h => rect_disjoint_symm h)
      · intro a ha b hb
        have hw := (rect_split_by_mem m clip a (List.mem_reverse.mp ha)).1
        exact rect_intersect_of_within a m b hw (h1.1 b hb)
    · rw [if_neg hi]
      apply ih
      simpa using h

/-- A property of the members that passes from a rectangle to its strips holds of
every member the loop leaves, whatever the fuel and the index. -/
theorem rect_subtract_clip_rect_loop_forall (clip : rect_t) (Q : rect_t → Prop)
    (hQ : ∀ m p, Q m → p ∈ rect_split_by m clip → Q p) :
    ∀ (fuel : Nat) (rects : List rect_t) (i : Nat), (∀ m ∈ rects, Q m) →
      ∀ r ∈ rect_subtract_clip_rect_loop clip fuel rects i, Q r := by
  intro fuel
  induction fuel with
  | zero => intro rects i h r hr; exact h r (by simpa [rect_subtract_clip_rect_loop] using hr)
  | succ fuel ih =>
    intro rects i h r hr
    unfold rect_subtract_clip_rect_loop at hr
    by_cases hlen : i < rects.length
    · rw [if_pos hlen] at hr
      cases hget : list_get_at rects i with
      | none => rw [hget] at hr; exact h r hr
      | some current =>
        rw [hget] at hr
        have hcur : current ∈ rects := List.getElem?_mem hget
        by_cases hi : rect_intersect current clip = true
        · simp only [hi, if_true, foldl_list_add_front] at hr
          refine ih _ _ ?_ r hr
          intro m hm
          rcases List.mem_append.mp hm with h1 | h1
          · exact hQ current m (h current hcur) (List.mem_reverse.mp h1)
          · exact h m (List.mem_of_mem_eraseIdx h1)
        · simp only [hi] at hr
          exact ih _ _ h r hr
    · rw [if_neg hlen] at hr
      exact h r hr

/-- A property of the members that passes from a rectangle to its strips holds of
every member after the subtraction. -/
theorem rect_subtract_clip_rect_forall (clip : rect_t) (Q : rect_t → Prop)
    (hQ : ∀ m p, Q m → p ∈ rect_split_by m clip → Q p) (rects : List rect_t)
    (h : ∀ m ∈ rects, Q m) : ∀ r ∈ rect_subtract_clip_rect rects clip, Q r :=
  rect_subtract_clip_rect_loop_forall clip Q hQ _ _ _ h

/-- When every member intersects the clip and has no strip, the loop empties the
list: the index stays 0, the wrap of `i = n_splits + i - 1` being undone by
the increment. -/
theorem rect_subtract_clip_rect_loop_vanish (clip : rect_t) :
    ∀ (fuel : Nat) (rects : List rect_t), rects.length ≤ fuel →
      (∀ m ∈ rects, rect_intersect m clip = true ∧ rect_split_by m clip = []) →
      rect_subtract_clip_rect_loop clip fuel rects 0 = [] := by
  intro fuel
  induction fuel with
  | zero =>
    intro rects h _
    have : rects = [] := List.length_eq_zero.mp (Nat.le_zero.mp h)
    subst this
    rfl
  | succ fuel ih =>
    intro rects h hall
    cases rects with
    | nil => simp [rect_subtract_clip_rect_loop]
    | cons m rest =>
      have hm := hall m (List.mem_cons_self _ _)
      unfold rect_subtract_clip_rect_loop
      simp only [List.length_cons, Nat.zero_lt_succ, if_true, list_get_at, List.getElem?_cons_zero,
        hm.1, hm.2, List.foldl_nil, list_remove_at, List.eraseIdx_cons_zero, List.length_nil]
      have hidx : u32 (u32 (0 + 0 + 4294967295) + 1) = 0 := by decide
      rw [hidx]
      exact ih rest (by simpa using h) (fun x hx => hall x (List.mem_cons_of_mem _ hx))

/-- Subtraction from the empty list. -/
theorem rect_subtract_clip_rect_nil (clip : rect_t) : rect_subtract_clip_rect [] clip = [] := rfl

/-- The empty clip list stays empty under further subtractions. -/
theorem subtract_fold_nil (cws : List wm_window_t) :
    cws.foldl (fun rects cw => rect_subtract_clip_rect rects (rect_from_window_val cw)) [] = [] := by
  induction cws with
  | nil => rfl
  | cons a t ih => simpa [List.foldl, rect_subtract_clip_rect_nil] using ih

/-- The subtractions of `wm_draw_window` empty the clip list once a covering
window whose rectangle contains `R` is among them, when every member is well
formed and within `R`. -/
theorem subtract_fold_covered (R : rect_t) (B : wm_window_t)
    (hB : rect_within R (rect_from_window_val B)) :
    ∀ (cws : List wm_window_t) (rects : List rect_t), B ∈ cws →
      (∀ m ∈ rects, rect_wf m ∧ rect_within m R) →
      cws.foldl (fun rects cw => rect_subtract_clip_rect rects (rect_from_window_val cw)) rects
        = [] := by
  intro cws
  induction cws with
  | nil => intro rects h; simp at h
  | cons cw rest ih =>
    intro rects hmem hall
    simp only [List.foldl]
    by_cases hcw : cw = B
    · subst hcw
      have : rect_subtract_clip_rect rects (rect_from_window_val cw) = [] := by
        apply rect_subtract_clip_rect_loop_vanish _ _ _ (le_refl _)
        intro m hm
        have hw := rect_within_trans m R _ (hall m hm).2 hB
        exact ⟨rect_intersect_of_wf_within m _ (hall m hm).1 hw, rect_split_by_of_within m _ hw⟩
      rw [this]
      exact subtract_fold_nil rest
    · have hrest : B ∈ rest := by
        rcases List.mem_cons.mp hmem with h1 | h1
        · exact absurd h1.symm hcw
        · exact h1
      apply ih _ hrest
      apply rect_subtract_clip_rect_forall _ (fun m => rect_wf m ∧ rect_within m R) _ rects hall
      intro m p hm hp
      have := rect_split_by_mem m _ p hp
      exact ⟨this.2.2 hm.1, rect_within_trans p m R this.1 hm.2⟩

/-! ## The loop of `wm_assign_z_orders` -/

/-- Moving the element at a valid index to the front keeps the length. -/
theorem length_move_front {α : Type} (l : List α) (i : Nat) (w : α) (h : i < l.length) :
    (list_add_front (list_remove_at l i) w).length = l.length := by
  simp only [list_add_front, list_remove_at, List.length_cons, List.length_eraseIdx, h, if_true]
  omega

/-- Moving the element at a valid index to the tail keeps the length. -/
theorem length_move_back {α : Type} (l : List α) (i : Nat) (w : α) (h : i < l.length) :
    (list_add (list_remove_at l i) w).length = l.length := by
  simp only [list_add, list_remove_at, List.length_append, List.length_eraseIdx, h, if_true,
    List.length_singleton]
  omega

/-- The loop of `wm_assign_z_orders` ends by its own test once the fuel covers
the indices left: more fuel does not change the result.  In particular
`windows.length` iterations from index 0 are all the loop makes. -/
theorem wm_assign_z_orders_loop_fuel :
    ∀ (fuel : Nat) (windows : List wm_window_t) (i extra : Nat),
      windows.length < 4294967296 → windows.length ≤ i + fuel →
      wm_assign_z_orders_loop (fuel + extra) windows i = wm_assign_z_orders_loop fuel windows i := by
  intro fuel
  induction fuel with
  | zero =>
    intro windows i extra _ h
    cases extra with
    | zero => rfl
    | succ e =>
      have hlen : ¬ i < windows.length := by omega
      simp only [Nat.zero_add]
      unfold wm_assign_z_orders_loop
      rw [if_neg hlen]
  | succ fuel ih =>
    intro windows i extra hcap h
    have hfuel : fuel + 1 + extra = (fuel + extra) + 1 := by omega
    rw [hfuel]
    unfold wm_assign_z_orders_loop
    by_cases hlen : i < windows.length
    · have hidx : u32 (i + 1) = i + 1 := by
        unfold u32
        omega
      simp only [hlen, if_true, hidx]
      cases list_get_at windows i with
      | none => rfl
      | some win =>
        simp only []
        split
        · exact ih _ _ _ (by rw [length_move_front _ _ _ hlen]; exact hcap)
            (by rw [length_move_front _ _ _ hlen]; omega)
        · split
          · exact ih _ _ _ (by rw [length_move_back _ _ _ hlen]; exact hcap)
              (by rw [length_move_back _ _ _ hlen]; omega)
          · exact ih _ _ _ hcap (by omega)
    · simp only [hlen, if_false]

/-! ## More on the subtraction -/

/-- The accumulator form in closed form: the strips of the intersecting members,
last member first and each group reversed, then what was visited before, then
the members that miss the clip in their order. -/
theorem rect_subtract_acc_closed (clip : rect_t) :
    ∀ (todo done : List rect_t),
      rect_subtract_acc clip done todo
        = ((todo.filter (fun m => rect_intersect m clip)).flatMap
            (fun m => rect_split_by m clip)).reverse ++ done
          ++ todo.filter (fun m => !rect_intersect m clip) := by
  intro todo
  induction todo with
  | nil => intro done; simp [rect_subtract_acc]
  | cons m rest ih =>
    intro done
    unfold rect_subtract_acc
    by_cases hi : rect_intersect m clip = true
    · rw [if_pos hi, ih]
      simp [hi, List.filter_cons]
    · rw [if_neg hi, ih]
      simp [hi, List.filter_cons]

/-- The closed form holds the same rectangles as the subtraction in the words of
the specification. -/
theorem rect_subtract_spec_perm (clip : rect_t) (rects : List rect_t) :
    (((rects.filter (fun m => rect_intersect m clip)).flatMap
        (fun m => rect_split_by m clip)).reverse
      ++ rects.filter (fun m => !rect_intersect m clip)).Perm (rect_subtract_spec rects clip) := by
  unfold rect_subtract_spec
  induction rects with
  | nil => simp
  | cons m rest ih =>
    by_cases hi : rect_intersect m clip = true
    · simp only [List.filter_cons, hi, if_true, List.flatMap_cons, List.reverse_append,
        Bool.not_true, Bool.false_eq_true, if_false]
      have h1 : ((List.flatMap (List.filter (fun m => rect_intersect m clip) rest)
              (fun m => rect_split_by m clip)).reverse ++ (rect_split_by m clip).reverse
            ++ List.filter (fun m => !rect_intersect m clip) rest).Perm
          (rect_split_by m clip ++ ((List.flatMap (List.filter (fun m => rect_intersect m clip) rest)
              (fun m => rect_split_by m clip)).reverse
            ++ List.filter (fun m => !rect_intersect m clip) rest)) := by
        rw [List.append_assoc]
        refine List.perm_append_comm_assoc _ _ _ |>.trans ?_
        exact List.Perm.append_right _ (List.reverse_perm _)
      exact h1.trans (List.Perm.append_left _ ih)
    · simp only [List.filter_cons, hi, if_false, List.flatMap_cons, Bool.not_eq_true,
        Bool.not_false, if_true, Bool.false_eq_true]
      refine List.perm_middle.trans ?_
      exact List.Perm.cons _ ih

/-- On a list whose members all miss the clip the loop changes nothing, whatever
the fuel and the index. -/
theorem rect_subtract_clip_rect_loop_miss (clip : rect_t) (rects : List rect_t)
    (h : ∀ m ∈ rects, rect_intersect m clip = false) :
    ∀ (fuel i : Nat), rect_subtract_clip_rect_loop clip fuel rects i = rects := by
  intro fuel
  induction fuel with
  | zero => intro i; rfl
  | succ fuel ih =>
    intro i
    unfold rect_subtract_clip_rect_loop
    by_cases hlen : i < rects.length
    · rw [if_pos hlen]
      cases hget : list_get_at rects i with
      | none => rfl
      | some current =>
        have hcur : current ∈ rects := List.getElem?_mem hget
        simp only [h current hcur, Bool.false_eq_true, if_false]
        exact ih _
    · rw [if_neg hlen]

/-! ## Permutations made by `wm_assign_z_orders` -/

/-- Taking out the element at an index and putting it in front permutes the list. -/
theorem eraseIdx_cons_perm {α : Type} (w : α) :
    ∀ (l : List α) (i : Nat), l[i]? = some w → (w :: l.eraseIdx i).Perm l := by
  intro l
  induction l with
  | nil => intro i h; simp at h
  | cons a t ih =>
    intro i h
    cases i with
    | zero =>
      simp only [List.getElem?_cons_zero, Option.some.injEq] at h
      subst h
      simp
    | succ j =>
      simp only [List.getElem?_cons_succ] at h
      simp only [List.eraseIdx_cons_succ]
      exact (List.Perm.swap a w _).trans (List.Perm.cons a (ih j h))

/-- The loop of `wm_assign_z_orders` permutes the list. -/
theorem wm_assign_z_orders_loop_perm :
    ∀ (fuel : Nat) (windows : List wm_window_t) (i : Nat),
      (wm_assign_z_orders_loop fuel windows i).Perm windows := by
  intro fuel
  induction fuel with
  | zero => intro windows i; exact List.Perm.refl _
  | succ fuel ih =>
    intro windows i
    unfold wm_assign_z_orders_loop
    by_cases hlen : i < windows.length
    · rw [if_pos hlen]
      cases hget : list_get_at windows i with
      | none => exact List.Perm.refl _
      | some win =>
        have hp : (win :: windows.eraseIdx i).Perm windows := eraseIdx_cons_perm win windows i hget
        simp only []
        split
        · exact (ih _ _).trans hp
        · split
          · refine (ih _ _).trans ?_
            exact (List.perm_append_singleton win _).trans hp
          · exact ih _ _
    · rw [if_neg hlen]

/-- The pass `wm_assign_z_orders` permutes the list. -/
theorem wm_assign_z_orders_perm (windows : List wm_window_t) :
    (wm_assign_z_orders windows).Perm windows :=
  wm_assign_z_orders_loop_perm _ _ _

/-- On a list without flagged windows the loop of `wm_assign_z_orders` changes
nothing. -/
theorem wm_assign_z_orders_loop_unflagged (windows : List wm_window_t)
    (h : ∀ w ∈ windows, w.flags &&& WM_BACKGROUND = 0 ∧ w.flags &&& WM_FOREGROUND = 0) :
    ∀ (fuel i : Nat), wm_assign_z_orders_loop fuel windows i = windows := by
  intro fuel
  induction fuel with
  | zero => intro i; rfl
  | succ fuel ih =>
    intro i
    unfold wm_assign_z_orders_loop
    by_cases hlen : i < windows.length
    · rw [if_pos hlen]
      cases hget : list_get_at windows i with
      | none => rfl
      | some win =>
        have hw := h win (List.getElem?_mem hget)
        simp only [hw.1, hw.2, ne_eq, not_true_eq_false, false_and, if_false]
        exact ih _
    · rw [if_neg hlen]

/-! ## Lookups -/

/-- The lookup finds nothing when no window holds the id. -/
theorem wm_get_window_eq_none (windows : List wm_window_t) (id : Nat)
    (h : ∀ w ∈ windows, w.id ≠ id) : wm_get_window windows id = none := by
  unfold wm_get_window
  rw [List.find?_eq_none]
  intro w hw
  simpa using h w hw

/-- A point of the derived rectangle passes the test of `wm_window_clicked` when
neither `x + width` nor `y + height` wraps to 0. -/
theorem wm_window_clicked_test_of_pixel (w : wm_window_t) (x y : Nat)
    (hw : u32 (w.x + w.kfb.width) ≠ 0 ∧ u32 (w.y + w.kfb.height) ≠ 0)
    (h : rect_has_pixel (rect_from_window_val w) y x) : wm_window_clicked_test w x y = true := by
  unfold rect_has_pixel rect_from_window_val at h
  unfold wm_window_clicked_test
  unfold u32 at *
  simp only [Bool.and_eq_true, decide_eq_true_eq, ge_iff_le]
  simp only [] at h
  omega

/-- What the loop of `wm_window_clicked` returns is a window of the list that
passes the test, and the windows after it up to the start index fail it. -/
theorem wm_window_clicked_loop_mem (windows : List wm_window_t) (x y : Nat) :
    ∀ (n : Nat) (w : wm_window_t), wm_window_clicked_loop windows x y n = some w →
      ∃ k, k < n ∧ list_get_at windows k = some w ∧ wm_window_clicked_test w x y = true ∧
        ∀ j v, k < j → j < n → list_get_at windows j = some v →
          wm_window_clicked_test v x y = false := by
  intro n
  induction n with
  | zero => intro w h; simp [wm_window_clicked_loop] at h
  | succ z ih =>
    intro w h
    unfold wm_window_clicked_loop at h
    cases hget : list_get_at windows z with
    | none => rw [hget] at h; simp at h
    | some v =>
      rw [hget] at h
      by_cases ht : wm_window_clicked_test v x y = true
      · simp only [ht, if_true, Option.some.injEq] at h
        subst h
        exact ⟨z, Nat.lt_succ_self z, hget, ht, fun j u hj hjn _ => by omega⟩
      · simp only [ht, if_false] at h
        obtain ⟨k, hk, hgk, htk, hrest⟩ := ih w h
        refine ⟨k, by omega, hgk, htk, ?_⟩
        intro j u hj hjn hgj
        by_cases hjz : j = z
        · subst hjz
          rw [hget] at hgj
          simp only [Option.some.injEq] at hgj
          subst hgj
          simpa using ht
        · exact hrest j u hj (by omega) hgj

/-- The loop of `wm_window_clicked` returns a window when one below the start
index passes the test. -/
theorem wm_window_clicked_loop_some (windows : List wm_window_t) (x y : Nat) :
    ∀ (n : Nat), n ≤ windows.length →
      (∃ k v, k < n ∧ list_get_at windows k = some v ∧ wm_window_clicked_test v x y = true) →
      ∃ w, wm_window_clicked_loop windows x y n = some w := by
  intro n
  induction n with
  | zero => rintro _ ⟨k, v, hk, _⟩; omega
  | succ z ih =>
    intro hn hex
    unfold wm_window_clicked_loop
    have hz : z < windows.length := by omega
    cases hget : list_get_at windows z with
    | none =>
      exfalso
      simp only [list_get_at, List.getElem?_eq_none_iff] at hget
      omega
    | some u =>
      simp only []
      by_cases ht : wm_window_clicked_test u x y = true
      · exact ⟨u, by simp [ht]⟩
      · simp only [ht, if_false]
        apply ih (by omega)
        obtain ⟨k, v, hk, hgk, htk⟩ := hex
        refine ⟨k, v, ?_, hgk, htk⟩
        by_contra hcon
        have hkz : k = z := by omega
        subst hkz
        rw [hget] at hgk
        simp only [Option.some.injEq] at hgk
        rw [hgk] at ht
        exact ht htk

/-- The window `wm_window_clicked` returns is in the list. -/
theorem wm_window_clicked_mem (windows : List wm_window_t) (x y : Nat) (v : wm_window_t)
    (h : wm_window_clicked windows x y = some v) : v ∈ windows := by
  unfold wm_window_clicked at h
  split at h
  · obtain ⟨k, _, hk, _⟩ := wm_window_clicked_loop_mem windows x y _ v h
    exact List.getElem?_mem hk
  · exact Option.noConfusion h

/-! ## Steps of the registry -/

/-- The result of `wm_open_window` when the placement has a value. -/
theorem wm_open_window_eq (s : wm_state) (buff : fb_t) (flags addr r1 r2 : Nat)
    (placed : wm_window_t)
    (h : wm_assign_position s.fb
        { ufb := buff, kfb := { buff with address := addr }, id := s.id_count, flags := flags,
          x := 0, y := 0 } r1 r2 = some placed) :
    wm_open_window s buff flags addr r1 r2
      = some ({ s with id_count := u32 (s.id_count + 1),
                       windows := wm_assign_z_orders (list_add s.windows placed) }, placed.id) := by
  unfold wm_open_window
  simp only [h]

/-- The result of `wm_close_window` when the lookup finds a window. -/
theorem wm_close_window_eq (s : wm_state) (win_id : Nat) (win : wm_window_t)
    (h : wm_get_window s.windows win_id = some win) :
    wm_close_window s win_id
      = { s with windows :=
            wm_assign_z_orders (list_remove_at s.windows (list_get_index_of s.windows win)) } := by
  unfold wm_close_window
  simp only [h]

/-- Running two sequences of calls one after the other. -/
theorem wm_run_append (s : wm_state) (a b : List wm_call) :
    wm_run s (a ++ b) = (wm_run s a).bind (fun s1 => wm_run s1 b) := by
  induction a generalizing s with
  | nil => rfl
  | cons c cs ih =>
    simp only [List.cons_append, wm_run]
    cases wm_step s c with
    | none => rfl
    | some s1 => simpa using ih s1

/-- The placement keeps the id. -/
theorem wm_assign_position_id (fb : fb_t) (win placed : wm_window_t) (r1 r2 : Nat)
    (h : wm_assign_position fb win r1 r2 = some placed) : placed.id = win.id := by
  unfold wm_assign_position at h
  split at h
  · simp only [Option.some.injEq] at h
    rw [← h]
  · simp only [] at h
    split at h
    · exact Option.noConfusion h
    · split at h
      · exact Option.noConfusion h
      · simp only [Option.some.injEq] at h
        rw [← h]

/-- What `wm_open_window` returns: the id is `id_count`, the counter moves on by
one, and the new window joins the list before the z-order pass. -/
theorem wm_open_window_some (s s1 : wm_state) (buff : fb_t) (flags addr r1 r2 id : Nat)
    (h : wm_open_window s buff flags addr r1 r2 = some (s1, id)) :
    ∃ placed, placed.id = s.id_count ∧ id = s.id_count ∧ s1.id_count = u32 (s.id_count + 1) ∧
      s1.windows = wm_assign_z_orders (list_add s.windows placed) := by
  unfold wm_open_window at h
  simp only [] at h
  split at h
  · exact Option.noConfusion h
  · rename_i placed hp
    have hid := wm_assign_position_id _ _ _ _ _ hp
    simp only [Option.some.injEq, Prod.mk.injEq] at h
    refine ⟨placed, hid, ?_, ?_, ?_⟩
    · rw [← h.2, hid]
    · rw [← h.1]
    · rw [← h.1]

/-- Raising a window permutes the list. -/
theorem wm_raise_window_perm (windows ws : List wm_window_t) (win : wm_window_t)
    (h : wm_raise_window windows win = some ws) : ws.Perm windows := by
  unfold wm_raise_window at h
  simp only [] at h
  split at h
  · rename_i removed hget
    simp only [Option.some.injEq] at h
    rw [← h]
    exact (List.perm_append_singleton removed _).trans (eraseIdx_cons_perm removed windows _ hget)
  · exact Option.noConfusion h

/-- Closing keeps `id_count` and leaves a permutation of a sublist of the
windows. -/
theorem wm_close_window_windows (s : wm_state) (win_id : Nat) :
    (wm_close_window s win_id).id_count = s.id_count ∧
    ∃ l, (wm_close_window s win_id).windows.Perm l ∧ l.Sublist s.windows := by
  unfold wm_close_window
  split
  · exact ⟨rfl, _, wm_assign_z_orders_perm _, List.eraseIdx_sublist _ _⟩
  · exact ⟨rfl, _, wm_assign_z_orders_perm _, List.Sublist.refl _⟩

/-! ## The ids along a sequence of calls -/

/-- After `init_wm` no id is in use. -/
theorem init_wm_ids_fresh (info : fb_t) (addr : Nat) : wm_ids_fresh (init_wm info addr) 0 := by
  refine ⟨rfl, ?_, ?_⟩
  · intro w hw
    simp [init_wm] at hw
  · simp [init_wm]

/-- The state of the ids passes to a permutation of a sublist of the windows. -/
theorem wm_ids_fresh_of_perm (s s1 : wm_state) (n : Nat) (h : wm_ids_fresh s n)
    (hc : s1.id_count = s.id_count) (l : List wm_window_t) (hp : s1.windows.Perm l)
    (hl : l.Sublist s.windows) : wm_ids_fresh s1 n := by
  obtain ⟨h1, h2, h3⟩ := h
  refine ⟨hc.trans h1, ?_, ?_⟩
  · intro w hw
    exact h2 w (hl.subset (hp.subset hw))
  · exact ((hp.map _).nodup_iff).mpr (h3.sublist (hl.map _))

/-- One call keeps the state of the ids, as long as `id_count` has not gone
around the `uint32_t` range. -/
theorem wm_step_ids_fresh (s s1 : wm_state) (c : wm_call) (n : Nat)
    (hstep : wm_step s c = some s1) (h : wm_ids_fresh s n)
    (hn : n + wm_open_count [c] ≤ 4294967296) : wm_ids_fresh s1 (n + wm_open_count [c]) := by
  cases c with
  | wm_open buff flags addr r1 r2 =>
    simp only [wm_open_count] at hn ⊢
    simp only [wm_step, Option.map_eq_some'] at hstep
    obtain ⟨⟨s2, id⟩, hopen, hs⟩ := hstep
    simp only at hs
    subst hs
    obtain ⟨placed, hid, _, hcount, hwin⟩ := wm_open_window_some _ _ _ _ _ _ _ _ hopen
    obtain ⟨h1, h2, h3⟩ := h
    have hun : u32 n = n := by
      unfold u32
      omega
    have hpid : placed.id = n := by rw [hid, h1, hun]
    have hperm : s2.windows.Perm (s.windows ++ [placed]) := by
      rw [hwin]
      exact wm_assign_z_orders_perm _
    refine ⟨?_, ?_, ?_⟩
    · rw [hcount, h1, hun]
    · intro w hw
      rcases List.mem_append.mp (hperm.subset hw) with hw1 | hw1
      · have := h2 w hw1
        omega
      · rw [List.mem_singleton.mp hw1, hpid]
        omega
    · rw [(hperm.map _).nodup_iff, List.map_append, List.nodup_append]
      refine ⟨h3, by simp, ?_⟩
      intro a ha hb
      simp only [List.map_cons, List.map_nil, List.mem_singleton] at hb
      obtain ⟨w, hw, hwa⟩ := List.mem_map.mp ha
      have := h2 w hw
      rw [hpid] at hb
      omega
  | wm_close win_id =>
    simp only [wm_step, Option.some.injEq] at hstep
    subst hstep
    obtain ⟨hc, l, hp, hl⟩ := wm_close_window_windows s win_id
    exact wm_ids_fresh_of_perm s _ _ h hc l hp hl
  | wm_raise win =>
    simp only [wm_step, Option.map_eq_some'] at hstep
    obtain ⟨ws, hr, hs⟩ := hstep
    subst hs
    exact wm_ids_fresh_of_perm s _ _ h rfl s.windows (wm_raise_window_perm _ _ _ hr)
      (List.Sublist.refl _)

/-- The opens of a sequence are those of its first call and those of the rest. -/
theorem wm_open_count_cons (c : wm_call) (cs : List wm_call) :
    wm_open_count (c :: cs) = wm_open_count [c] + wm_open_count cs := by
  cases c <;> simp only [wm_open_count] <;> omega

/-- A sequence of calls keeps the state of the ids, as long as `id_count` has not
gone around the `uint32_t` range. -/
theorem wm_run_ids_fresh :
    ∀ (calls : List wm_call) (s s1 : wm_state) (n : Nat), wm_run s calls = some s1 →
      wm_ids_fresh s n → n + wm_open_count calls ≤ 4294967296 →
      wm_ids_fresh s1 (n + wm_open_count calls) := by
  intro calls
  induction calls with
  | nil =>
    intro s s1 n hrun h _
    simp only [wm_run, Option.some.injEq] at hrun
    subst hrun
    simpa [wm_open_count] using h
  | cons c cs ih =>
    intro s s1 n hrun h hn
    simp only [wm_run, Option.bind_eq_some] at hrun
    obtain ⟨s2, hstep, hrest⟩ := hrun
    rw [wm_open_count_cons] at hn ⊢
    have h2 := wm_step_ids_fresh s s2 c n hstep h (by omega)
    have h3 := ih s2 s1 _ hrest h2 (by omega)
    rw [Nat.add_assoc] at h3
    exact h3

/-! ## A run that takes `id_count` around -/

/-- Placement of the window opened in a round. -/
theorem assign_position_round (c : Nat) : wm_assign_position { screen_100 with address := 0 }
        { ufb := buffer_10, kfb := { buffer_10 with address := 8192 }, id := c, flags := 0,
          x := 0, y := 0 } 0 0
      = some (opened_window c 0 8192 0 0) := by
    have hx : int_of_u32 (u32 (100 + (4294967296 - u32 10))) = 90 := by decide
    simp only [wm_assign_position, screen_100, buffer_10, hx]
    rfl

/-- The z-order pass on the two unflagged windows of a round. -/
theorem assign_z_orders_round (c : Nat) : wm_assign_z_orders
        (list_add [opened_window 0 0 4096 0 0] (opened_window c 0 8192 0 0))
      = [opened_window 0 0 4096 0 0, opened_window c 0 8192 0 0] := by
    apply wm_assign_z_orders_loop_unflagged
    intro w hw
    simp only [list_add, List.singleton_append, List.mem_cons, List.mem_singleton,
      List.not_mem_nil, or_false] at hw
    rcases hw with h | h <;> subst h <;> simp [opened_window, WM_BACKGROUND, WM_FOREGROUND]

/-- The open of a round. -/
theorem open_round (c : Nat) :
    wm_open_window (registry_100 c [opened_window 0 0 4096 0 0]) buffer_10 0 8192 0 0
      = some (registry_100 (u32 (c + 1))
          [opened_window 0 0 4096 0 0, opened_window c 0 8192 0 0], c) := by
  have h := wm_open_window_eq (registry_100 c [opened_window 0 0 4096 0 0]) buffer_10 0 8192 0 0
    (opened_window c 0 8192 0 0) (assign_position_round c)
  rw [h]
  have hz1 : wm_assign_z_orders
      (list_add (registry_100 c [opened_window 0 0 4096 0 0]).windows (opened_window c 0 8192 0 0))
      = [opened_window 0 0 4096 0 0, opened_window c 0 8192 0 0] := assign_z_orders_round c
  rw [hz1]
  rfl

/-- The close of a round. -/
theorem close_round (c : Nat) (hc1 : 1 ≤ c) :
    wm_close_window
        (registry_100 (u32 (c + 1)) [opened_window 0 0 4096 0 0, opened_window c 0 8192 0 0]) c
      = registry_100 (u32 (c + 1)) [opened_window 0 0 4096 0 0] := by
  have hne : opened_window c 0 8192 0 0 ∉ [opened_window 0 0 4096 0 0] := by
    simp only [List.mem_singleton]
    intro h
    have := congrArg wm_window_t.id h
    simp only [opened_window] at this
    omega
  have hget : wm_get_window
      (registry_100 (u32 (c + 1))
        [opened_window 0 0 4096 0 0, opened_window c 0 8192 0 0]).windows c
      = some (opened_window c 0 8192 0 0) := by
    have h0 : ¬ (0 = c) := by omega
    show wm_get_window [opened_window 0 0 4096 0 0, opened_window c 0 8192 0 0] c = _
    simp [wm_get_window, List.find?, opened_window, h0]
  rw [wm_close_window_eq _ _ _ hget]
  have hidx : list_get_index_of
      (registry_100 (u32 (c + 1))
        [opened_window 0 0 4096 0 0, opened_window c 0 8192 0 0]).windows
      (opened_window c 0 8192 0 0) = [opened_window 0 0 4096 0 0].length :=
    indexOf_middle [opened_window 0 0 4096 0 0] [] _ hne
  have hrem : list_remove_at
      (registry_100 (u32 (c + 1))
        [opened_window 0 0 4096 0 0, opened_window c 0 8192 0 0]).windows
      [opened_window 0 0 4096 0 0].length = [opened_window 0 0 4096 0 0] ++ [] :=
    remove_at_middle [opened_window 0 0 4096 0 0] [] (opened_window c 0 8192 0 0)
  rw [hidx, hrem]
  have hz : wm_assign_z_orders ([opened_window 0 0 4096 0 0] ++ [])
      = [opened_window 0 0 4096 0 0] := by decide
  rw [hz]
  rfl

/-- One round brings the registry back to the single window and moves `id_count`
on by one. -/
theorem open_close_round (c : Nat) (hc1 : 1 ≤ c) (rest : List wm_call) :
    wm_run (registry_100 c [opened_window 0 0 4096 0 0])
        (.wm_open buffer_10 0 8192 0 0 :: .wm_close c :: rest)
      = wm_run (registry_100 (u32 (c + 1)) [opened_window 0 0 4096 0 0]) rest := by
  rw [wm_run, wm_step, open_round c, Option.map_some', Option.some_bind, wm_run, wm_step,
    Option.some_bind, close_round c hc1]

/-- The registry after `n` rounds. -/
theorem open_close_rounds_run :
    ∀ (n c : Nat), 1 ≤ c → c + n ≤ 4294967296 →
      wm_run (registry_100 (u32 c) [opened_window 0 0 4096 0 0]) (open_close_rounds n c)
        = some (registry_100 (u32 (c + n)) [opened_window 0 0 4096 0 0]) := by
  intro n
  induction n with
  | zero => intro c _ _; rfl
  | succ n ih =>
    intro c hc1 hc2
    have hc : u32 c = c := by
      unfold u32
      omega
    have hcn : c + 1 + n = c + (n + 1) := by omega
    rw [open_close_rounds, hc, open_close_round c hc1, ih (c + 1) (by omega) (by omega), hcn]

/-- The registry after `id_wrap_prefix`: window 0 is open and `id_count` is 0
again. -/
theorem id_wrap_prefix_run :
    wm_run (init_wm screen_100 0) id_wrap_prefix
      = some (registry_100 0 [opened_window 0 0 4096 0 0]) := by
  have h1 : wm_step (init_wm screen_100 0) (.wm_open buffer_10 0 4096 0 0)
      = some (registry_100 (u32 1) [opened_window 0 0 4096 0 0]) := by decide
  have h2 := open_close_rounds_run 4294967295 1 (le_refl _) (by omega)
  have h3 : u32 (1 + 4294967295) = 0 := by decide
  unfold id_wrap_prefix
  rw [wm_run, h1, Option.some_bind, h2, h3]

/-- The registry after `id_wrap_calls`: two windows with the id 0. -/
theorem id_wrap_calls_run :
    wm_run (init_wm screen_100 0) id_wrap_calls
      = some (registry_100 1 [opened_window 0 0 4096 0 0, opened_window 0 0 12288 0 0]) := by
  have h3 : wm_run (registry_100 0 [opened_window 0 0 4096 0 0])
      [.wm_open buffer_10 0 12288 0 0]
      = some (registry_100 1 [opened_window 0 0 4096 0 0, opened_window 0 0 12288 0 0]) := by
    decide
  unfold id_wrap_calls
  rw [wm_run_append, id_wrap_prefix_run, Option.some_bind, h3]

/-! ## The loop of `wm_get_windows_above` -/

/-- The loop of `wm_get_windows_above` in closed form, for any values of its
guard: the windows at which the guard holds, last one first, in front of what
was collected before. -/
theorem wm_get_windows_above_loop_eq (test : Nat → wm_window_t → Bool) :
    ∀ (l : List wm_window_t) (i : Nat) (acc : List wm_window_t),
      wm_get_windows_above_loop test l i acc
        = (((l.enumFrom i).filter (fun p => test p.1 p.2)).map Prod.snd).reverse ++ acc := by
  intro l
  induction l with
  | nil => intro i acc; rfl
  | cons a t ih =>
    intro i acc
    simp only [wm_get_windows_above_loop, ih, List.enumFrom_cons]
    by_cases ha : test i a = true
    · simp [ha, list_add_front, List.filter_cons]
    · simp [ha, List.filter_cons]

/-- The list `wm_get_windows_above` returns, for any values of the guard: the
windows after `win` at which the guard holds, the highest index first. -/
theorem wm_get_windows_above_by_eq (test : Nat → wm_window_t → Bool)
    (windows : List wm_window_t) (win : wm_window_t) :
    wm_get_windows_above_by test windows win
      = ((((windows.drop (list_get_index_of windows win + 1)).enumFrom
            (list_get_index_of windows win + 1)).filter (fun p => test p.1 p.2)).map
          Prod.snd).reverse := by
  unfold wm_get_windows_above_by
  simp only []
  rw [wm_get_windows_above_loop_eq]
  simp

/-- The numbered elements of a list from index `n` on. -/
theorem mem_enumFrom_drop {α : Type} (l : List α) (n j : Nat) (v : α) :
    (j, v) ∈ (l.drop n).enumFrom n ↔ n ≤ j ∧ list_get_at l j = some v := by
  unfold list_get_at
  rw [List.mk_mem_enumFrom_iff_le_and_getElem?_sub, List.getElem?_drop]
  constructor
  · rintro ⟨h1, h2⟩
    have : n + (j - n) = j := by omega
    rw [this] at h2
    exact ⟨h1, h2⟩
  · rintro ⟨h1, h2⟩
    have : n + (j - n) = j := by omega
    rw [this]
    exact ⟨h1, h2⟩

/-- The members of the list `wm_get_windows_above` returns: the windows at an
index above that of `win` at which the guard holds. -/
theorem wm_get_windows_above_by_mem (test : Nat → wm_window_t → Bool)
    (windows : List wm_window_t) (win v : wm_window_t) :
    v ∈ wm_get_windows_above_by test windows win ↔
      ∃ j, list_get_index_of windows win < j ∧ list_get_at windows j = some v ∧
        test j v = true := by
  rw [wm_get_windows_above_by_eq, List.mem_reverse, List.mem_map]
  constructor
  · rintro ⟨⟨j, w⟩, hm, rfl⟩
    rw [List.mem_filter, mem_enumFrom_drop] at hm
    exact ⟨j, by omega, hm.1.2, hm.2⟩
  · rintro ⟨j, hj, hg, ht⟩
    refine ⟨(j, v), ?_, rfl⟩
    rw [List.mem_filter, mem_enumFrom_drop]
    exact ⟨⟨by omega, hg⟩, ht⟩

/-- The list `wm_get_windows_above` returns is taken from the windows after
`win`, in reverse order. -/
theorem wm_get_windows_above_by_sublist (test : Nat → wm_window_t → Bool)
    (windows : List wm_window_t) (win : wm_window_t) :
    (wm_get_windows_above_by test windows win).Sublist
      (windows.drop (list_get_index_of windows win + 1)).reverse := by
  rw [wm_get_windows_above_by_eq, List.reverse_sublist]
  have h := (List.filter_sublist (p := fun p : Nat × wm_window_t => test p.1 p.2)
    ((windows.drop (list_get_index_of windows win + 1)).enumFrom
      (list_get_index_of windows win + 1))).map Prod.snd
  rw [List.enumFrom_map_snd] at h
  exact h

/-- With one window `B` above `A`, the guard at `B` decides what
`wm_get_windows_above` returns. -/
theorem wm_get_windows_above_by_pair (test : Nat → wm_window_t → Bool) (A B : wm_window_t) :
    wm_get_windows_above_by test [A, B] A = if test 1 B then [B] else [] := by
  have hidx : list_get_index_of [A, B] A = 0 := by simp [list_get_index_of]
  unfold wm_get_windows_above_by
  rw [hidx]
  simp only [Nat.zero_add, List.drop_succ_cons, List.drop_zero, wm_get_windows_above_loop,
    list_add_front]

/-- With one window `B` above `A`, the clip list of `wm_draw_window` is the
damage rectangle, less the rectangle of `B` when the guard holds at `B`. -/
theorem wm_draw_window_clip_rects_by_pair (test : Nat → wm_window_t → Bool) (A B : wm_window_t)
    (rect : rect_t) :
    wm_draw_window_clip_rects_by test [A, B] A rect
      = if test 1 B then rect_subtract_clip_rect [rect] (rect_from_window_val B) else [rect] := by
  unfold wm_draw_window_clip_rects_by
  rw [wm_get_windows_above_by_pair]
  have h : rect_add_clip_rect [] rect = [rect] := rfl
  rw [h]
  by_cases ht : test 1 B = true
  · simp [ht]
  · simp [ht]

/-- The incoming call read word by word fails as soon as the address in the
place of `top` exceeds the bottom row of the window, whatever the other three
words are. -/
theorem wm_get_windows_above_guard_incoming_false (win_rect : rect_t)
    (rect_ptr w1 w2 w3 : Nat) (h : win_rect.bottom < rect_ptr) :
    wm_get_windows_above_guard_incoming win_rect rect_ptr w1 w2 w3 = false := by
  unfold wm_get_windows_above_guard_incoming
  rw [rect_intersect_eq_false]
  right; right; right
  exact h

/-- When the guard holds at a window above `A` whose rectangle contains that
of `A`, `wm_draw_window` called on `A` with the rectangle of `A` copies
nothing, on either side of the merge and whatever the other windows are. -/
theorem wm_draw_window_by_covered (test : Nat → wm_window_t → Bool) (side : merge_side)
    (windows : List wm_window_t) (A B : wm_window_t) (j : Nat)
    (hj : list_get_index_of windows A < j) (hB : list_get_at windows j = some B)
    (ht : test j B = true)
    (hcover : rect_within (rect_from_window_val A) (rect_from_window_val B)) :
    wm_draw_window_by test side windows A (rect_from_window_val A) = [] := by
  unfold wm_draw_window_by
  by_cases hself : rect_intersect (rect_from_window_val A) (rect_from_window_val A) = true
  · have hwf : rect_wf (rect_from_window_val A) := by
      unfold rect_intersect at hself
      unfold rect_wf
      simp only [Bool.and_eq_true, decide_eq_true_eq, ge_iff_le] at hself
      omega
    have hclips : wm_draw_window_clip_rects_by test windows A (rect_from_window_val A) = [] := by
      unfold wm_draw_window_clip_rects_by
      apply subtract_fold_covered (rect_from_window_val A) B hcover
      · exact (wm_get_windows_above_by_mem test windows A B).mpr ⟨j, hj, hB, ht⟩
      · intro m hm
        have : m = rect_from_window_val A := by
          simpa [rect_add_clip_rect, rect_subtract_clip_rect_nil, list_add_front,
            rect_new_from_eq] using hm
        subst this
        exact ⟨hwf, by unfold rect_within; omega⟩
    simp [hself, hclips]
  · simp [hself]

/-- The loop with a guard that looks at the window only is the fold of
`wm_get_windows_above`. -/
theorem wm_get_windows_above_loop_fold (p : wm_window_t → Bool) :
    ∀ (l : List wm_window_t) (i : Nat) (acc : List wm_window_t),
      wm_get_windows_above_loop (fun _ next => p next) l i acc
        = l.foldl (fun list next => if p next then list_add_front list next else list) acc := by
  intro l
  induction l with
  | nil => intro i acc; rfl
  | cons a t ih =>
    intro i acc
    simp only [wm_get_windows_above_loop, List.foldl_cons, ih]

/-- The function `wm_get_windows_above` with the documented guard is the
instance of `wm_get_windows_above_by` at the overlap test. -/
theorem wm_get_windows_above_eq_by (windows : List wm_window_t) (win : wm_window_t) :
    wm_get_windows_above windows win
      = wm_get_windows_above_by
          (fun _ next => rect_intersect (rect_from_window_val win) (rect_from_window_val next))
          windows win := by
  unfold wm_get_windows_above wm_get_windows_above_by
  simp only []
  rw [wm_get_windows_above_loop_fold
    (fun next => rect_intersect (rect_from_window_val win) (rect_from_window_val next))]

/-- The function `wm_draw_window` is the instance of `wm_draw_window_by` at
the overlap test and the incoming side. -/
theorem wm_draw_window_eq_by (windows : List wm_window_t) (win : wm_window_t) (rect : rect_t) :
    wm_draw_window windows win rect
      = wm_draw_window_by
          (fun _ next => rect_intersect (rect_from_window_val win) (rect_from_window_val next))
          merge_side.incoming windows win rect := by
  unfold wm_draw_window wm_draw_window_by wm_draw_window_clip_rects
    wm_draw_window_clip_rects_by
  rw [wm_get_windows_above_eq_by]
  rfl

/-! ## The claims -/

/-- C1: split completeness fails when an edge of `cut` lies on the far edge of
`original`.  With `original = {0,0,9,9}` and `cut = {0,9,9,20}` (both well
formed, intersecting in column 9) `rect_split_by` returns no rectangle, so the
pixel at row 0, column 0, which is in `original` and not in `cut`, is covered by
nothing. -/
theorem rect_split_by_drops_pixels :
    rect_wf ⟨0, 0, 9, 9⟩ ∧ rect_wf ⟨0, 9, 9, 20⟩ ∧
    rect_intersect ⟨0, 0, 9, 9⟩ ⟨0, 9, 9, 20⟩ = true ∧
    rect_split_by ⟨0, 0, 9, 9⟩ ⟨0, 9, 9, 20⟩ = [] ∧
    rect_has_pixel ⟨0, 0, 9, 9⟩ 0 0 ∧ ¬ rect_has_pixel ⟨0, 9, 9, 20⟩ 0 0 := by
  decide

/-- C2: an occluded pixel is drawn.  `W` is a 10 x 10 window at the origin and
`V`, above it in the list, a 10 x 10 window right below it (rows 10 to 19).
For the damage rectangle `{0,0,10,9}` the clamping of `wm_partial_draw_window`
keeps `bottom = 10 = y + height` (on either side of the merge), so
`wm_draw_window` copies rows 0 to 10 and row 10 lies in the rectangle of `V`. -/
theorem wm_draw_window_draws_under_upper_window :
    list_get_index_of [window_at 0 0 0 0 10 10, window_at 1 0 0 10 10 10]
        (window_at 0 0 0 0 10 10) = 0 ∧
    list_get_at [window_at 0 0 0 0 10 10, window_at 1 0 0 10 10 10] 1
        = some (window_at 1 0 0 10 10 10) ∧
    rect_from_window_val (window_at 0 0 0 0 10 10) = ⟨0, 0, 9, 9⟩ ∧
    rect_from_window_val (window_at 1 0 0 10 10 10) = ⟨10, 0, 19, 9⟩ ∧
    wm_draw_window [window_at 0 0 0 0 10 10, window_at 1 0 0 10 10 10]
        (window_at 0 0 0 0 10 10) ⟨0, 0, 10, 9⟩ = [⟨0, 0, 10, 9⟩] ∧
    wm_partial_draw_window_HEAD (window_at 0 0 0 0 10 10) ⟨0, 0, 10, 9⟩ = ⟨0, 0, 10, 9⟩ ∧
    rect_has_pixel ⟨0, 0, 10, 9⟩ 10 0 ∧
    rect_has_pixel (rect_from_window_val (window_at 1 0 0 10 10 10)) 10 0 := by
  decide

/-- C3: region disjointness.  In every clip list obtained from the empty list
by `rect_add_clip_rect` and `rect_subtract_clip_rect` calls with well-formed
rectangles, `rect_intersect` is false for every pair of members at distinct
positions. -/
theorem clip_list_pairwise_disjoint (rects : List rect_t) (h : clip_list_reachable rects) :
    rects.Pairwise (fun a b => rect_intersect a b = false) := by
  induction h with
  | empty => exact List.Pairwise.nil
  | add rects clip _ _ hcap ih =>
    unfold rect_add_clip_rect list_add_front rect_new_from rect_new
    rw [rect_subtract_clip_rect_eq_acc rects clip hcap]
    rw [List.pairwise_cons]
    refine ⟨?_, rect_subtract_acc_pairwise clip rects [] (by simpa using ih)⟩
    intro r hr
    have := rect_subtract_acc_no_clip clip rects [] (by simp) r hr
    rw [rect_intersect_comm]
    exact this
  | subtract rects clip _ _ hcap ih =>
    rw [rect_subtract_clip_rect_eq_acc rects clip hcap]
    exact rect_subtract_acc_pairwise clip rects [] (by simpa using ih)

/-- Witness of C3: two additions followed by a subtraction. -/
theorem clip_list_pairwise_disjoint_witness :
    clip_list_reachable
      (rect_subtract_clip_rect
        (rect_add_clip_rect (rect_add_clip_rect [] ⟨0, 0, 19, 19⟩) ⟨5, 5, 30, 30⟩) ⟨0, 0, 3, 30⟩) ∧
    (rect_subtract_clip_rect
        (rect_add_clip_rect (rect_add_clip_rect [] ⟨0, 0, 19, 19⟩) ⟨5, 5, 30, 30⟩)
        ⟨0, 0, 3, 30⟩).Pairwise (fun a b => rect_intersect a b = false) :=
  have h : clip_list_reachable
      (rect_subtract_clip_rect
        (rect_add_clip_rect (rect_add_clip_rect [] ⟨0, 0, 19, 19⟩) ⟨5, 5, 30, 30⟩) ⟨0, 0, 3, 30⟩) :=
    .subtract _ _ (.add _ _ (.add _ _ .empty (by decide) (by decide)) (by decide) (by decide))
      (by decide) (by decide)
  ⟨h, clip_list_pairwise_disjoint _ h⟩

/-- C4, as stated: for `A = {0,0,19,19}` behind `B = {0,0,9,9}` the clip list
of `wm_draw_window(A, the rectangle of A)` does not have 4 members, whatever
the guard in `wm_get_windows_above` returns; and a pixel of `B` is copied on
the `HEAD` side of `wm_partial_draw_window`, whose clamping turns the strip
`{10,0,19,9}` into `{0,0,19,9}`, and on both sides when the guard fails at
`B`, where the rectangle of `A` is copied whole.  Row 0, column 0 is such a
pixel. -/
theorem wm_draw_window_corner_never_four :
    rect_from_window_val (window_at 0 0 0 0 20 20) = ⟨0, 0, 19, 19⟩ ∧
    rect_from_window_val (window_at 1 0 0 0 10 10) = ⟨0, 0, 9, 9⟩ ∧
    (∀ test : Nat → wm_window_t → Bool,
      (wm_draw_window_clip_rects_by test [window_at 0 0 0 0 20 20, window_at 1 0 0 0 10 10]
        (window_at 0 0 0 0 20 20) ⟨0, 0, 19, 19⟩).length ≠ 4) ∧
    (∀ test : Nat → wm_window_t → Bool,
      wm_draw_window_by test merge_side.HEAD
          [window_at 0 0 0 0 20 20, window_at 1 0 0 0 10 10] (window_at 0 0 0 0 20 20)
          ⟨0, 0, 19, 19⟩
        = if test 1 (window_at 1 0 0 0 10 10) then [⟨0, 0, 19, 9⟩, ⟨0, 10, 19, 19⟩]
          else [⟨0, 0, 19, 19⟩]) ∧
    (∀ test : Nat → wm_window_t → Bool,
      wm_draw_window_by test merge_side.incoming
          [window_at 0 0 0 0 20 20, window_at 1 0 0 0 10 10] (window_at 0 0 0 0 20 20)
          ⟨0, 0, 19, 19⟩
        = if test 1 (window_at 1 0 0 0 10 10) then [⟨10, 0, 19, 9⟩, ⟨0, 10, 19, 19⟩]
          else [⟨0, 0, 19, 19⟩]) ∧
    rect_has_pixel ⟨0, 0, 19, 9⟩ 0 0 ∧ rect_has_pixel ⟨0, 0, 19, 19⟩ 0 0 ∧
    rect_has_pixel (rect_from_window_val (window_at 1 0 0 0 10 10)) 0 0 := by
  refine ⟨by decide, by decide, ?_, ?_, ?_, by decide, by decide, by decide⟩
  · intro test
    rw [wm_draw_window_clip_rects_by_pair]
    cases test 1 (window_at 1 0 0 0 10 10) <;> decide
  · intro test
    unfold wm_draw_window_by
    rw [wm_draw_window_clip_rects_by_pair]
    cases test 1 (window_at 1 0 0 0 10 10) <;> decide
  · intro test
    unfold wm_draw_window_by
    rw [wm_draw_window_clip_rects_by_pair]
    cases test 1 (window_at 1 0 0 0 10 10) <;> decide

/-- C4, amended: for a window list `[A, B]` with the rectangle of `A` equal to
`{0,0,19,19}` and that of `B` to `{0,0,9,9}`, and for every value of the guard
in `wm_get_windows_above`, the clip list of `wm_draw_window` called on `A`
with the rectangle of `A` never has 4 members: it is the 2 rectangles
`{10,0,19,9}` and `{0,10,19,19}` when the guard holds at `B`, and the rectangle
of `A` alone when it does not.  The 2 rectangles contain no pixel of the
rectangle of `B` and cover every pixel of `A` outside `B`; the clamping of the
incoming side of `wm_partial_draw_window` leaves them as they are, so that on
that side the copied rectangles are the clip list, and no pixel of `B` is
copied when the guard holds at `B`. -/
theorem wm_draw_window_corner_two (test : Nat → wm_window_t → Bool) (A B : wm_window_t)
    (hA : rect_from_window_val A = ⟨0, 0, 19, 19⟩)
    (hB : rect_from_window_val B = ⟨0, 0, 9, 9⟩) :
    wm_draw_window_clip_rects_by test [A, B] A ⟨0, 0, 19, 19⟩
      = (if test 1 B then [⟨10, 0, 19, 9⟩, ⟨0, 10, 19, 19⟩] else [⟨0, 0, 19, 19⟩]) ∧
    (wm_draw_window_clip_rects_by test [A, B] A ⟨0, 0, 19, 19⟩).length ≠ 4 ∧
    (∀ r ∈ ([⟨10, 0, 19, 9⟩, ⟨0, 10, 19, 19⟩] : List rect_t), ∀ py px,
      rect_has_pixel r py px → ¬ rect_has_pixel (rect_from_window_val B) py px) ∧
    (∀ py px, (rect_has_pixel (rect_from_window_val A) py px ∧
        ¬ rect_has_pixel (rect_from_window_val B) py px) ↔
      ∃ r ∈ ([⟨10, 0, 19, 9⟩, ⟨0, 10, 19, 19⟩] : List rect_t), rect_has_pixel r py px) ∧
    wm_partial_draw_window A ⟨10, 0, 19, 9⟩ = ⟨10, 0, 19, 9⟩ ∧
    wm_partial_draw_window A ⟨0, 10, 19, 19⟩ = ⟨0, 10, 19, 19⟩ ∧
    wm_draw_window_by test merge_side.incoming [A, B] A ⟨0, 0, 19, 19⟩
      = wm_draw_window_clip_rects_by test [A, B] A ⟨0, 0, 19, 19⟩ ∧
    (test 1 B = true →
      ∀ r ∈ wm_draw_window_by test merge_side.incoming [A, B] A ⟨0, 0, 19, 19⟩, ∀ py px,
        rect_has_pixel r py px → ¬ rect_has_pixel (rect_from_window_val B) py px) := by
  have hclips : wm_draw_window_clip_rects_by test [A, B] A ⟨0, 0, 19, 19⟩
      = (if test 1 B then [⟨10, 0, 19, 9⟩, ⟨0, 10, 19, 19⟩] else [⟨0, 0, 19, 19⟩]) := by
    rw [wm_draw_window_clip_rects_by_pair, hB]
    have h : rect_subtract_clip_rect [⟨0, 0, 19, 19⟩] ⟨0, 0, 9, 9⟩
        = [⟨10, 0, 19, 9⟩, ⟨0, 10, 19, 19⟩] := by decide
    rw [h]
  have h4 := hA
  simp only [rect_from_window_val, rect_t.mk.injEq] at h4
  obtain ⟨hy, hx, hb, hr⟩ := h4
  have hb1 : u32 (A.y + A.kfb.height) = 20 := by
    unfold u32 at *
    omega
  have hr1 : u32 (A.x + A.kfb.width) = 20 := by
    unfold u32 at *
    omega
  rw [hy] at hb1
  rw [hx] at hr1
  have hp1 : wm_partial_draw_window A ⟨10, 0, 19, 9⟩ = ⟨10, 0, 19, 9⟩ := by
    simp only [wm_partial_draw_window, hA, hy, hx, hb1, hr1]
    decide
  have hp2 : wm_partial_draw_window A ⟨0, 10, 19, 19⟩ = ⟨0, 10, 19, 19⟩ := by
    simp only [wm_partial_draw_window, hA, hy, hx, hb1, hr1]
    decide
  have hp3 : wm_partial_draw_window A ⟨0, 0, 19, 19⟩ = ⟨0, 0, 19, 19⟩ := by
    simp only [wm_partial_draw_window, hA, hy, hx, hb1, hr1]
    decide
  clear hb hr hb1 hr1
  have hstrips : ∀ r ∈ ([⟨10, 0, 19, 9⟩, ⟨0, 10, 19, 19⟩] : List rect_t), ∀ py px,
      rect_has_pixel r py px → ¬ rect_has_pixel (rect_from_window_val B) py px := by
    rw [hB]
    intro r hr py px
    simp only [List.mem_cons, List.mem_singleton, List.not_mem_nil, or_false] at hr
    rcases hr with h | h <;> subst h <;> unfold rect_has_pixel <;> simp only [] <;> omega
  have hdraw : wm_draw_window_by test merge_side.incoming [A, B] A ⟨0, 0, 19, 19⟩
      = wm_draw_window_clip_rects_by test [A, B] A ⟨0, 0, 19, 19⟩ := by
    unfold wm_draw_window_by
    rw [hclips, hA]
    have hint : rect_intersect ⟨0, 0, 19, 19⟩ ⟨0, 0, 19, 19⟩ = true := by decide
    simp only [hint, Bool.not_true, Bool.false_eq_true, if_false, wm_partial_draw_window_on]
    have hon : ∀ c, wm_partial_draw_window_on merge_side.incoming A c
        = wm_partial_draw_window A c := fun _ => rfl
    cases test 1 B
    · simp only [Bool.false_eq_true, if_false, List.map, hon, hp3]
    · simp only [if_true, List.map, hon, hp1, hp2]
  refine ⟨hclips, ?_, hstrips, ?_, hp1, hp2, hdraw, ?_⟩
  · rw [hclips]
    cases test 1 B <;> decide
  · rw [hA, hB]
    intro py px
    simp only [List.mem_cons, List.mem_singleton, List.not_mem_nil, or_false, exists_eq_or_imp,
      exists_eq_left, rect_has_pixel]
    omega
  · intro ht r hr
    rw [hdraw, hclips, ht] at hr
    exact hstrips r hr

/-- Witness of C4: a 20 x 20 window behind a 10 x 10 window, both at the
origin, for every value of the guard. -/
theorem wm_draw_window_corner_two_witness :
    rect_from_window_val (window_at 0 0 0 0 20 20) = ⟨0, 0, 19, 19⟩ ∧
    rect_from_window_val (window_at 1 0 0 0 10 10) = ⟨0, 0, 9, 9⟩ ∧
    ∀ test : Nat → wm_window_t → Bool,
      wm_draw_window_clip_rects_by test [window_at 0 0 0 0 20 20, window_at 1 0 0 0 10 10]
          (window_at 0 0 0 0 20 20) ⟨0, 0, 19, 19⟩
        = (if test 1 (window_at 1 0 0 0 10 10) then [⟨10, 0, 19, 9⟩, ⟨0, 10, 19, 19⟩]
           else [⟨0, 0, 19, 19⟩]) :=
  ⟨by decide, by decide, fun test =>
    (wm_draw_window_corner_two test (window_at 0 0 0 0 20 20) (window_at 1 0 0 0 10 10)
      (by decide) (by decide)).1⟩

/-- C5: a window covered by a window above it is drawn whole.  `A` is a
10 x 10 window at column 5, row 5 and `B`, above it in the list, a 30 x 30
window at the origin, so that the rectangle of `B` contains that of `A`.
`wm_draw_window` called on `A` with the rectangle of `A` ends with an empty
clip list and copies nothing only when the guard in `wm_get_windows_above`
holds at `B`; when it does not, the clip list is the rectangle of `A` and
that rectangle is copied, on either side of `wm_partial_draw_window`.  The
incoming call `rect_intersect(&win_rect, &rect)`, read word by word, compares
the bottom row 14 of `A` with the address held in `rect`: it fails for every
address above 14, whatever the other words are, and `A` is drawn whole. -/
theorem wm_draw_window_covered_window_drawn :
    rect_from_window_val (window_at 0 0 5 5 10 10) = ⟨5, 5, 14, 14⟩ ∧
    rect_from_window_val (window_at 1 0 0 0 30 30) = ⟨0, 0, 29, 29⟩ ∧
    rect_within (rect_from_window_val (window_at 0 0 5 5 10 10))
      (rect_from_window_val (window_at 1 0 0 0 30 30)) ∧
    list_get_index_of [window_at 0 0 5 5 10 10, window_at 1 0 0 0 30 30]
      (window_at 0 0 5 5 10 10) = 0 ∧
    list_get_at [window_at 0 0 5 5 10 10, window_at 1 0 0 0 30 30] 1
      = some (window_at 1 0 0 0 30 30) ∧
    (∀ (test : Nat → wm_window_t → Bool),
      wm_draw_window_clip_rects_by test [window_at 0 0 5 5 10 10, window_at 1 0 0 0 30 30]
          (window_at 0 0 5 5 10 10) ⟨5, 5, 14, 14⟩
        = if test 1 (window_at 1 0 0 0 30 30) then [] else [⟨5, 5, 14, 14⟩]) ∧
    (∀ (test : Nat → wm_window_t → Bool) (side : merge_side),
      wm_draw_window_by test side [window_at 0 0 5 5 10 10, window_at 1 0 0 0 30 30]
          (window_at 0 0 5 5 10 10) ⟨5, 5, 14, 14⟩
        = if test 1 (window_at 1 0 0 0 30 30) then [] else [⟨5, 5, 14, 14⟩]) ∧
    (∀ rect_ptr w1 w2 w3 : Nat,
      wm_get_windows_above_guard_incoming ⟨5, 5, 14, 14⟩ (rect_ptr + 15) w1 w2 w3 = false) ∧
    (∀ (rect_ptr w1 w2 w3 : Nat) (side : merge_side),
      wm_draw_window_by
          (fun _ _ => wm_get_windows_above_guard_incoming ⟨5, 5, 14, 14⟩ (rect_ptr + 15) w1 w2 w3)
          side [window_at 0 0 5 5 10 10, window_at 1 0 0 0 30 30]
          (window_at 0 0 5 5 10 10) ⟨5, 5, 14, 14⟩ = [⟨5, 5, 14, 14⟩]) := by
  have hclips : ∀ (test : Nat → wm_window_t → Bool),
      wm_draw_window_clip_rects_by test [window_at 0 0 5 5 10 10, window_at 1 0 0 0 30 30]
          (window_at 0 0 5 5 10 10) ⟨5, 5, 14, 14⟩
        = if test 1 (window_at 1 0 0 0 30 30) then [] else [⟨5, 5, 14, 14⟩] := by
    intro test
    rw [wm_draw_window_clip_rects_by_pair]
    cases test 1 (window_at 1 0 0 0 30 30) <;> decide
  have hdraw : ∀ (test : Nat → wm_window_t → Bool) (side : merge_side),
      wm_draw_window_by test side [window_at 0 0 5 5 10 10, window_at 1 0 0 0 30 30]
          (window_at 0 0 5 5 10 10) ⟨5, 5, 14, 14⟩
        = if test 1 (window_at 1 0 0 0 30 30) then [] else [⟨5, 5, 14, 14⟩] := by
    intro test side
    unfold wm_draw_window_by
    rw [hclips]
    cases test 1 (window_at 1 0 0 0 30 30) <;> cases side <;> decide
  have hguard : ∀ rect_ptr w1 w2 w3 : Nat,
      wm_get_windows_above_guard_incoming ⟨5, 5, 14, 14⟩ (rect_ptr + 15) w1 w2 w3 = false := by
    intro rect_ptr w1 w2 w3
    apply wm_get_windows_above_guard_incoming_false
    show 14 < rect_ptr + 15
    omega
  refine ⟨by decide, by decide, by decide, by decide, by decide, hclips, hdraw, hguard, ?_⟩
  intro rect_ptr w1 w2 w3 side
  rw [hdraw, hguard]
  rfl

/-- C6: `wm_assign_z_orders` is not idempotent.  On a normal window, a
foreground window and a background window, in this order, the first pass moves
the foreground window to the tail and skips the background window that slid
into its place; the second pass then moves the background window to the front.
On two foreground windows every pass swaps them. -/
theorem wm_assign_z_orders_not_idempotent :
    wm_assign_z_orders [window_at 0 0 0 0 10 10, window_at 1 WM_FOREGROUND 0 0 10 10,
        window_at 2 WM_BACKGROUND 0 0 10 10]
      = [window_at 0 0 0 0 10 10, window_at 2 WM_BACKGROUND 0 0 10 10,
        window_at 1 WM_FOREGROUND 0 0 10 10] ∧
    wm_assign_z_orders (wm_assign_z_orders [window_at 0 0 0 0 10 10,
        window_at 1 WM_FOREGROUND 0 0 10 10, window_at 2 WM_BACKGROUND 0 0 10 10])
      = [window_at 2 WM_BACKGROUND 0 0 10 10, window_at 0 0 0 0 10 10,
        window_at 1 WM_FOREGROUND 0 0 10 10] ∧
    wm_assign_z_orders [window_at 0 WM_FOREGROUND 0 0 10 10, window_at 1 WM_FOREGROUND 0 0 10 10]
      = [window_at 1 WM_FOREGROUND 0 0 10 10, window_at 0 WM_FOREGROUND 0 0 10 10] ∧
    wm_assign_z_orders (wm_assign_z_orders [window_at 0 WM_FOREGROUND 0 0 10 10,
        window_at 1 WM_FOREGROUND 0 0 10 10])
      = [window_at 0 WM_FOREGROUND 0 0 10 10, window_at 1 WM_FOREGROUND 0 0 10 10] := by
  decide

/-- C7: a background window that is not at index 0 right after its open.
From the empty registry, opening a normal window (id 0), a foreground window
(id 1) and then a background window (id 2) leaves the ids in the order 0, 2, 1:
the background window is at index 1. -/
theorem wm_open_window_background_not_first :
    (wm_run (init_wm screen_100 0)
        [.wm_open buffer_10 0 4096 3 4, .wm_open buffer_10 WM_FOREGROUND 8192 13 14,
         .wm_open buffer_10 WM_BACKGROUND 12288 23 24]).map
      (fun s => s.windows.map (fun w => (w.id, w.flags)))
      = some [(0, 0), (2, WM_BACKGROUND), (1, WM_FOREGROUND)] := by
  decide

/-- C8: a normal window above a foreground window.  From the empty registry,
opening two foreground windows (ids 0 and 1) and then a normal window (id 2)
leaves the ids in the order 0, 2, 1: the normal window is above the foreground
window 0. -/
theorem wm_open_window_foreground_not_last :
    (wm_run (init_wm screen_100 0)
        [.wm_open buffer_10 WM_FOREGROUND 4096 3 4, .wm_open buffer_10 WM_FOREGROUND 8192 13 14,
         .wm_open buffer_10 0 12288 23 24]).map
      (fun s => s.windows.map (fun w => (w.id, w.flags)))
      = some [(0, WM_FOREGROUND), (2, 0), (1, WM_FOREGROUND)] := by
  decide

/-- C9: for a window `w` of the list, `wm_raise_window` returns the list with
`w` taken out of its position (its first occurrence, after `pre`) and put last;
the other windows keep their order and every window is the same value as
before, so no id, position, flag or buffer changes. -/
theorem wm_raise_window_moves_last (windows : List wm_window_t) (w : wm_window_t)
    (h : w ∈ windows) :
    ∃ pre post, windows = pre ++ w :: post ∧ w ∉ pre ∧
      wm_raise_window windows w = some (pre ++ post ++ [w]) := by
  obtain ⟨pre, post, h1, h2, h3⟩ := indexOf_split w windows h
  refine ⟨pre, post, h1, h2, ?_⟩
  unfold wm_raise_window list_get_index_of
  rw [h3, h1]
  simp only [get_at_middle, remove_at_middle]
  rfl

/-- Witness of C9: raising the middle one of three windows. -/
theorem wm_raise_window_moves_last_witness :
    window_at 1 0 0 0 10 10 ∈
      [window_at 0 0 0 0 10 10, window_at 1 0 0 0 10 10, window_at 2 0 0 0 10 10] ∧
    ∃ pre post,
      [window_at 0 0 0 0 10 10, window_at 1 0 0 0 10 10, window_at 2 0 0 0 10 10]
        = pre ++ window_at 1 0 0 0 10 10 :: post ∧
      window_at 1 0 0 0 10 10 ∉ pre ∧
      wm_raise_window
          [window_at 0 0 0 0 10 10, window_at 1 0 0 0 10 10, window_at 2 0 0 0 10 10]
          (window_at 1 0 0 0 10 10)
        = some (pre ++ post ++ [window_at 1 0 0 0 10 10]) :=
  ⟨by decide, wm_raise_window_moves_last _ _ (by decide)⟩

/-- C10: a hit outside the derived rectangle.  For a single 10 x 10 window at
the origin, whose derived rectangle is `{0,0,9,9}`, `wm_window_clicked(10, 10)`
returns the window although the point is in no derived rectangle. -/
theorem wm_window_clicked_off_by_one :
    rect_from_window_val (window_at 0 0 0 0 10 10) = ⟨0, 0, 9, 9⟩ ∧
    wm_window_clicked [window_at 0 0 0 0 10 10] 10 10 = some (window_at 0 0 0 0 10 10) ∧
    ¬ rect_has_pixel (rect_from_window_val (window_at 0 0 0 0 10 10)) 10 10 := by
  decide

/-- C11, as stated: a point of a derived rectangle for which `wm_window_clicked`
returns nothing.  For a window 0 wide and 1 high at the origin the derived
rectangle has `right = 0 - 1 = 2^32 - 1` and holds the point (5, 0); for a
10 x 10 window at column 2^32 - 10 the derived rectangle is
`{0, 2^32 - 10, 9, 2^32 - 1}` and holds the point (2^32 - 6, 5).  In both the
test compares `x` with `w->x + w->kfb.width`, which is 0 in `uint32_t`. -/
theorem wm_window_clicked_misses_on_wrap :
    rect_from_window_val (window_at 0 0 0 0 0 1) = ⟨0, 0, 0, 4294967295⟩ ∧
    rect_has_pixel (rect_from_window_val (window_at 0 0 0 0 0 1)) 0 5 ∧
    wm_window_clicked [window_at 0 0 0 0 0 1] 5 0 = none ∧
    rect_from_window_val (window_at 0 0 4294967286 0 10 10) = ⟨0, 4294967286, 9, 4294967295⟩ ∧
    rect_has_pixel (rect_from_window_val (window_at 0 0 4294967286 0 10 10)) 5 4294967290 ∧
    wm_window_clicked [window_at 0 0 4294967286 0 10 10] 4294967290 5 = none := by
  decide

/-- C11, amended: in a list of at most 2^31 windows none of which has
`x + width` or `y + height` equal to 0 in `uint32_t`, when the point `(x, y)`
lies in the derived rectangle of some window, `wm_window_clicked` returns a
window of the list and no window at a higher index has a derived rectangle
holding the point; for two windows whose rectangles both hold the point it
returns the upper one. -/
theorem wm_window_clicked_topmost (windows : List wm_window_t) (x y : Nat)
    (hlen : windows.length ≤ 2147483648)
    (hwrap : ∀ w ∈ windows, u32 (w.x + w.kfb.width) ≠ 0 ∧ u32 (w.y + w.kfb.height) ≠ 0)
    (hin : ∃ w ∈ windows, rect_has_pixel (rect_from_window_val w) y x) :
    (∃ k w, list_get_at windows k = some w ∧ wm_window_clicked windows x y = some w ∧
      ∀ j v, k < j → list_get_at windows j = some v →
        ¬ rect_has_pixel (rect_from_window_val v) y x) ∧
    (∀ a b, windows = [a, b] → rect_has_pixel (rect_from_window_val b) y x →
      wm_window_clicked windows x y = some b) := by
  have hclick : wm_window_clicked windows x y
      = wm_window_clicked_loop windows x y windows.length := by
    unfold wm_window_clicked
    rw [if_pos hlen]
  have hex : ∃ k v, k < windows.length ∧ list_get_at windows k = some v ∧
      wm_window_clicked_test v x y = true := by
    obtain ⟨w, hw, hp⟩ := hin
    obtain ⟨k, hk, hgk⟩ := List.getElem_of_mem hw
    refine ⟨k, w, hk, ?_, wm_window_clicked_test_of_pixel w x y (hwrap w hw) hp⟩
    simp [list_get_at, List.getElem?_eq_getElem hk, hgk]
  obtain ⟨w, hw⟩ := wm_window_clicked_loop_some windows x y windows.length (le_refl _) hex
  obtain ⟨k, hk, hgk, _, hrest⟩ := wm_window_clicked_loop_mem windows x y _ w hw
  have hmain : ∀ j v, k < j → list_get_at windows j = some v →
      ¬ rect_has_pixel (rect_from_window_val v) y x := by
    intro j v hj hgj hp
    have hjlen : j < windows.length := by
      unfold list_get_at at hgj
      exact (List.getElem?_eq_some.mp hgj).1
    have hv : v ∈ windows := List.getElem?_mem hgj
    have := hrest j v hj hjlen hgj
    rw [wm_window_clicked_test_of_pixel v x y (hwrap v hv) hp] at this
    exact Bool.noConfusion this
  refine ⟨⟨k, w, hgk, by rw [hclick, hw], hmain⟩, ?_⟩
  intro a b hab hb
  subst hab
  rw [hclick, hw]
  by_cases hk1 : k = 1
  · subst hk1
    simp only [list_get_at, List.getElem?_cons_succ, List.getElem?_cons_zero,
      Option.some.injEq] at hgk
    rw [hgk]
  · exfalso
    simp only [List.length_cons, List.length_nil] at hk
    exact hmain 1 b (by omega) (by simp [list_get_at]) hb

/-- Witness of C11: a 10 x 10 window on top of a 20 x 20 window, and a point in
both. -/
theorem wm_window_clicked_topmost_witness :
    [window_at 0 0 0 0 20 20, window_at 1 0 5 5 10 10].length ≤ 2147483648 ∧
    (∃ w ∈ [window_at 0 0 0 0 20 20, window_at 1 0 5 5 10 10],
      rect_has_pixel (rect_from_window_val w) 7 8) ∧
    wm_window_clicked [window_at 0 0 0 0 20 20, window_at 1 0 5 5 10 10] 8 7
      = some (window_at 1 0 5 5 10 10) :=
  ⟨by decide, ⟨window_at 1 0 5 5 10 10, by decide, by decide⟩,
    (wm_window_clicked_topmost [window_at 0 0 0 0 20 20, window_at 1 0 5 5 10 10] 8 7
      (by decide) (by decide) ⟨window_at 1 0 5 5 10 10, by decide, by decide⟩).2
      _ _ rfl (by decide)⟩

/-- C12, as stated: after `id_wrap_calls` two windows hold the id 0;
`wm_close_window(0)` removes the first one, after which `wm_get_window(0)`
still finds a window and `wm_window_clicked(5, 5)` returns it. -/
theorem wm_close_window_leaves_id :
    wm_run (init_wm screen_100 0) id_wrap_calls
      = some (registry_100 1 [opened_window 0 0 4096 0 0, opened_window 0 0 12288 0 0]) ∧
    (wm_close_window
      (registry_100 1 [opened_window 0 0 4096 0 0, opened_window 0 0 12288 0 0]) 0).windows
      = [opened_window 0 0 12288 0 0] ∧
    wm_get_window
      (wm_close_window
        (registry_100 1 [opened_window 0 0 4096 0 0, opened_window 0 0 12288 0 0]) 0).windows 0
      = some (opened_window 0 0 12288 0 0) ∧
    wm_window_clicked
      (wm_close_window
        (registry_100 1 [opened_window 0 0 4096 0 0, opened_window 0 0 12288 0 0]) 0).windows 5 5
      = some (opened_window 0 0 12288 0 0) :=
  ⟨id_wrap_calls_run, by decide, by decide, by decide⟩

/-- C12, amended: in a registry reached from `init_wm` by calls of which at most
2^32 are opens, after `wm_close_window` on the id of a live window
`wm_get_window` on that id finds nothing and `wm_window_clicked` returns no
window with that id, whatever the point. -/
theorem wm_close_window_excludes (info : fb_t) (addr : Nat) (calls : List wm_call)
    (s : wm_state) (w : wm_window_t)
    (hrun : wm_run (init_wm info addr) calls = some s)
    (hcount : wm_open_count calls ≤ 4294967296) (hw : w ∈ s.windows) :
    wm_get_window (wm_close_window s w.id).windows w.id = none ∧
    ∀ x y v, wm_window_clicked (wm_close_window s w.id).windows x y = some v → v.id ≠ w.id := by
  have h := wm_run_ids_fresh calls _ s 0 hrun (init_wm_ids_fresh info addr) (by omega)
  obtain ⟨_, _, h3⟩ := h
  have hinj := List.inj_on_of_nodup_map h3
  -- the lookup finds `w` itself
  have hget : wm_get_window s.windows w.id = some w := by
    cases hf : wm_get_window s.windows w.id with
    | none =>
      unfold wm_get_window at hf
      rw [List.find?_eq_none] at hf
      exact absurd (by simp) (hf w hw)
    | some u =>
      unfold wm_get_window at hf
      have hu : u ∈ s.windows := List.mem_of_find?_eq_some hf
      have hid : u.id = w.id := by simpa using List.find?_some hf
      rw [hinj hu hw hid]
  obtain ⟨pre, post, hsplit, hpre, _⟩ := indexOf_split w s.windows hw
  have hwin : (wm_close_window s w.id).windows = wm_assign_z_orders (pre ++ post) := by
    rw [wm_close_window_eq s w.id w hget]
    show wm_assign_z_orders (list_remove_at s.windows (list_get_index_of s.windows w)) = _
    rw [hsplit, indexOf_middle pre post w hpre, remove_at_middle]
  have hnone : ∀ v ∈ (wm_close_window s w.id).windows, v.id ≠ w.id := by
    intro v hv hvid
    rw [hwin] at hv
    have hv1 : v ∈ pre ++ post := (wm_assign_z_orders_perm _).subset hv
    have hv2 : v ∈ s.windows := by
      rw [hsplit]
      rcases List.mem_append.mp hv1 with h | h
      · exact List.mem_append_left _ h
      · exact List.mem_append_right _ (List.mem_cons_of_mem _ h)
    have hvw : v = w := hinj hv2 hw hvid
    subst hvw
    rw [hsplit, List.map_append, List.map_cons] at h3
    have hnd := List.nodup_middle.mp h3
    rw [List.nodup_cons] at hnd
    apply hnd.1
    rw [← List.map_append]
    exact List.mem_map_of_mem _ hv1
  refine ⟨wm_get_window_eq_none _ _ hnone, ?_⟩
  intro x y v hv
  exact hnone v (wm_window_clicked_mem _ x y v hv)

/-- Witness of C12: closing the first of two opened windows. -/
theorem wm_close_window_excludes_witness :
    wm_run (init_wm screen_100 0)
        [.wm_open buffer_10 0 4096 3 4, .wm_open buffer_10 WM_FOREGROUND 8192 13 14]
      = some (registry_100 2
          [opened_window 0 0 4096 3 4, opened_window 1 WM_FOREGROUND 8192 13 14]) ∧
    wm_get_window
      (wm_close_window
        (registry_100 2 [opened_window 0 0 4096 3 4, opened_window 1 WM_FOREGROUND 8192 13 14])
        (opened_window 0 0 4096 3 4).id).windows (opened_window 0 0 4096 3 4).id = none :=
  ⟨by decide,
    (wm_close_window_excludes screen_100 0
      [.wm_open buffer_10 0 4096 3 4, .wm_open buffer_10 WM_FOREGROUND 8192 13 14] _
      (opened_window 0 0 4096 3 4) (by decide) (by decide) (by decide)).1⟩

/-- C13, as stated: a close of an unknown id that reorders the list.  A
foreground window (id 0) and a normal window (id 1) are opened and the normal
one is raised, which leaves the ids in the order 0, 1; no window has the id 7,
and `wm_close_window(7)` leaves the order 1, 0. -/
theorem wm_close_window_unknown_reorders :
    (wm_run (init_wm screen_100 0)
        [.wm_open buffer_10 WM_FOREGROUND 4096 3 4, .wm_open buffer_10 0 8192 13 14,
         .wm_raise (opened_window 1 0 8192 13 14)]).map
      (fun s => (s.windows.map (fun w => w.id), wm_get_window s.windows 7))
      = some ([0, 1], none) ∧
    (wm_run (init_wm screen_100 0)
        [.wm_open buffer_10 WM_FOREGROUND 4096 3 4, .wm_open buffer_10 0 8192 13 14,
         .wm_raise (opened_window 1 0 8192 13 14), .wm_close 7]).map
      (fun s => s.windows.map (fun w => w.id))
      = some [1, 0] := by
  decide

/-- C13, amended: for an id held by no window, `wm_close_window` removes and
adds no window.  The list afterwards is `wm_assign_z_orders` of the list
before, a permutation of it; `id_count` is unchanged; and the order is
unchanged too when no window carries `WM_BACKGROUND` or `WM_FOREGROUND`. -/
theorem wm_close_window_unknown (s : wm_state) (win_id : Nat)
    (h : ∀ w ∈ s.windows, w.id ≠ win_id) :
    (wm_close_window s win_id).windows = wm_assign_z_orders s.windows ∧
    (wm_close_window s win_id).windows.Perm s.windows ∧
    (wm_close_window s win_id).id_count = s.id_count ∧
    ((∀ w ∈ s.windows, w.flags &&& WM_BACKGROUND = 0 ∧ w.flags &&& WM_FOREGROUND = 0) →
      (wm_close_window s win_id).windows = s.windows) := by
  have hnone := wm_get_window_eq_none s.windows win_id h
  have hw : (wm_close_window s win_id).windows = wm_assign_z_orders s.windows := by
    unfold wm_close_window
    rw [hnone]
  refine ⟨hw, ?_, ?_, ?_⟩
  · rw [hw]
    exact wm_assign_z_orders_perm _
  · unfold wm_close_window
    rw [hnone]
  · intro hf
    rw [hw]
    exact wm_assign_z_orders_loop_unflagged _ hf _ _

/-- Witness of C13: a registry of two windows, none with the id 7. -/
theorem wm_close_window_unknown_witness :
    (∀ w ∈ ({ id_count := 2,
              windows := [opened_window 0 WM_FOREGROUND 4096 3 4, opened_window 1 0 8192 13 14],
              screen_fb := screen_100, fb := screen_100 } : wm_state).windows, w.id ≠ 7) ∧
    (wm_close_window
        { id_count := 2,
          windows := [opened_window 0 WM_FOREGROUND 4096 3 4, opened_window 1 0 8192 13 14],
          screen_fb := screen_100, fb := screen_100 } 7).windows.Perm
      [opened_window 0 WM_FOREGROUND 4096 3 4, opened_window 1 0 8192 13 14] :=
  ⟨by decide,
    (wm_close_window_unknown
      { id_count := 2,
        windows := [opened_window 0 WM_FOREGROUND 4096 3 4, opened_window 1 0 8192 13 14],
        screen_fb := screen_100, fb := screen_100 } 7 (by decide)).2.1⟩

/-- C14, as stated: an id returned while a window holds it.  After
`id_wrap_prefix` window 0 is still open and `id_count` is 0 again; the next
`wm_open_window` returns the id 0 and leaves two different windows with the
id 0. -/
theorem wm_open_window_reuses_id :
    wm_run (init_wm screen_100 0) id_wrap_prefix
      = some (registry_100 0 [opened_window 0 0 4096 0 0]) ∧
    (opened_window 0 0 4096 0 0).id = 0 ∧
    wm_open_window (registry_100 0 [opened_window 0 0 4096 0 0]) buffer_10 0 12288 0 0
      = some (registry_100 1 [opened_window 0 0 4096 0 0, opened_window 0 0 12288 0 0], 0) ∧
    opened_window 0 0 4096 0 0 ≠ opened_window 0 0 12288 0 0 ∧
    (opened_window 0 0 12288 0 0).id = 0 :=
  ⟨id_wrap_prefix_run, rfl, by decide, by decide, rfl⟩

/-- C14, amended: in a registry reached from `init_wm` by calls of which at most
2^32 are opens, the windows of the list have pairwise distinct ids; and when
fewer than 2^32 of the calls are opens, the id a further `wm_open_window`
returns is the id of no window of the list. -/
theorem wm_ids_unique (info : fb_t) (addr : Nat) (calls : List wm_call) (s : wm_state)
    (hrun : wm_run (init_wm info addr) calls = some s)
    (hcount : wm_open_count calls ≤ 4294967296) :
    (s.windows.map (fun w => w.id)).Nodup ∧
    (wm_open_count calls < 4294967296 →
      ∀ buff flags a r1 r2 s1 id, wm_open_window s buff flags a r1 r2 = some (s1, id) →
        ∀ w ∈ s.windows, w.id ≠ id) := by
  have h := wm_run_ids_fresh calls _ s 0 hrun (init_wm_ids_fresh info addr) (by omega)
  rw [Nat.zero_add] at h
  obtain ⟨h1, h2, h3⟩ := h
  refine ⟨h3, ?_⟩
  intro hlt buff flags a r1 r2 s1 id hopen w hw
  obtain ⟨_, _, hid, _, _⟩ := wm_open_window_some _ _ _ _ _ _ _ _ hopen
  have hun : u32 (wm_open_count calls) = wm_open_count calls := by
    unfold u32
    omega
  have := h2 w hw
  rw [hid, h1, hun]
  omega

/-- Witness of C14: three opens and a close. -/
theorem wm_ids_unique_witness :
    wm_run (init_wm screen_100 0)
        [.wm_open buffer_10 0 4096 3 4, .wm_open buffer_10 WM_FOREGROUND 8192 13 14,
         .wm_close 0, .wm_open buffer_10 0 12288 23 24]
      = some (registry_100 3
          [opened_window 2 0 12288 23 24, opened_window 1 WM_FOREGROUND 8192 13 14]) ∧
    wm_open_count
        [.wm_open buffer_10 0 4096 3 4, .wm_open buffer_10 WM_FOREGROUND 8192 13 14,
         .wm_close 0, .wm_open buffer_10 0 12288 23 24] ≤ 4294967296 ∧
    ((registry_100 3
        [opened_window 2 0 12288 23 24, opened_window 1 WM_FOREGROUND 8192 13 14]).windows.map
      (fun w => w.id)).Nodup :=
  ⟨by decide, by decide,
    (wm_ids_unique screen_100 0
      [.wm_open buffer_10 0 4096 3 4, .wm_open buffer_10 WM_FOREGROUND 8192 13 14,
       .wm_close 0, .wm_open buffer_10 0 12288 23 24] _ (by decide) (by decide)).1⟩

/-- C15, as stated: strips for a cut that misses the original.  The cut
`{20,3,30,5}` lies below `{0,0,9,9}`; its left and right edges fall strictly
inside the original and `rect_split_by` emits two strips. -/
theorem rect_split_by_emits_on_miss :
    rect_wf ⟨0, 0, 9, 9⟩ ∧ rect_wf ⟨20, 3, 30, 5⟩ ∧
    rect_intersect ⟨0, 0, 9, 9⟩ ⟨20, 3, 30, 5⟩ = false ∧
    rect_split_by ⟨0, 0, 9, 9⟩ ⟨20, 3, 30, 5⟩ = [⟨0, 0, 9, 2⟩, ⟨0, 6, 9, 9⟩] := by
  decide

/-- C15, amended: `rect_subtract_clip_rect`, the caller of `rect_split_by`, tests
`rect_intersect` first: a clip list whose members all miss `cut` comes back
untouched, no strip is produced and every member is kept. -/
theorem rect_subtract_clip_rect_keeps_missed (rects : List rect_t) (cut : rect_t)
    (h : ∀ m ∈ rects, rect_intersect m cut = false) :
    rect_subtract_clip_rect rects cut = rects :=
  rect_subtract_clip_rect_loop_miss cut rects h _ _

/-- Witness of C15: the single member `{0,0,9,9}` and the cut `{20,3,30,5}`. -/
theorem rect_subtract_clip_rect_keeps_missed_witness :
    (∀ m ∈ [(⟨0, 0, 9, 9⟩ : rect_t)], rect_intersect m ⟨20, 3, 30, 5⟩ = false) ∧
    rect_subtract_clip_rect [⟨0, 0, 9, 9⟩] ⟨20, 3, 30, 5⟩ = [⟨0, 0, 9, 9⟩] :=
  ⟨by decide, rect_subtract_clip_rect_keeps_missed _ _ (by decide)⟩

/-- C16: after `rect_add_clip_rect` the rectangle is the first member of the list
and no other member intersects it.  The list has fewer than 2^30 members, the
range in which the `uint32_t` count and loop index do not wrap; the members
and the rectangle need not be well formed. -/
theorem rect_add_clip_rect_unobstructed (rects : List rect_t) (rect : rect_t)
    (hcap : rects.length < 1073741824) :
    ∃ rest, rect_add_clip_rect rects rect = rect :: rest ∧
      ∀ r ∈ rest, rect_intersect r rect = false ∧ rect_intersect rect r = false := by
  refine ⟨rect_subtract_clip_rect rects rect, rfl, ?_⟩
  intro r hr
  rw [rect_subtract_clip_rect_eq_acc rects rect hcap] at hr
  have h := rect_subtract_acc_no_clip rect rects [] (by simp) r hr
  exact ⟨h, by rw [rect_intersect_comm]; exact h⟩

/-- Witness of C16: adding `{5,5,9,9}` to a list of two rectangles. -/
theorem rect_add_clip_rect_unobstructed_witness :
    [(⟨0, 0, 19, 19⟩ : rect_t), ⟨30, 30, 40, 40⟩].length < 1073741824 ∧
    ∃ rest, rect_add_clip_rect [⟨0, 0, 19, 19⟩, ⟨30, 30, 40, 40⟩] ⟨5, 5, 9, 9⟩
        = ⟨5, 5, 9, 9⟩ :: rest ∧
      ∀ r ∈ rest, rect_intersect r ⟨5, 5, 9, 9⟩ = false ∧ rect_intersect ⟨5, 5, 9, 9⟩ r = false :=
  ⟨by decide, rect_add_clip_rect_unobstructed _ _ (by decide)⟩

/-- C17: the placement of a window as high as the framebuffer and less wide has
no value.  For a 50 x 100 window on the 100 x 100 screen the width test fails,
`max_y` is 0 and `rand() % max_y` divides by zero, whatever `rand()` returns;
`wm_open_window` of such a buffer has no value either. -/
theorem wm_assign_position_full_height (r1 r2 : Nat) :
    (window_at 0 0 0 0 50 100).kfb.width ≤ screen_100.width ∧
    (window_at 0 0 0 0 50 100).kfb.height ≤ screen_100.height ∧
    wm_assign_position screen_100 (window_at 0 0 0 0 50 100) r1 r2 = none ∧
    wm_open_window (init_wm screen_100 0)
      { address := 0, width := 50, height := 100, pitch := 200, bpp := 32 } 0 4096 r1 r2
      = none :=
  ⟨by decide, by decide, rfl, rfl⟩

/-- C18: intersection symmetry, `rect_intersect(a, b) = rect_intersect(b, a)` for
all rectangles. -/
theorem rect_intersect_symmetric (a b : rect_t) : rect_intersect a b = rect_intersect b a := by
  unfold rect_intersect
  rw [Bool.eq_iff_iff]
  simp only [Bool.and_eq_true, decide_eq_true_eq, ge_iff_le]
  omega

/-- C19: the inclusive intersection rule.  `rect_intersect(a, b)` holds exactly
when `a.left ≤ b.right`, `a.right ≥ b.left`, `a.top ≤ b.bottom` and
`a.bottom ≥ b.top`; well-formed rectangles that touch at an edge
(`a.right = b.left`, vertical extents overlapping) intersect; and well-formed
rectangles intersect exactly when they share a pixel. -/
theorem rect_intersect_inclusive (a b : rect_t) :
    (rect_intersect a b = true ↔
      (a.left ≤ b.right ∧ a.right ≥ b.left ∧ a.top ≤ b.bottom ∧ a.bottom ≥ b.top)) ∧
    (rect_wf a → rect_wf b → a.right = b.left → a.top ≤ b.bottom → b.top ≤ a.bottom →
      rect_intersect a b = true) ∧
    (rect_wf a → rect_wf b →
      (rect_intersect a b = true ↔
        ∃ py px, rect_has_pixel a py px ∧ rect_has_pixel b py px)) := by
  have h1 : rect_intersect a b = true ↔
      (a.left ≤ b.right ∧ a.right ≥ b.left ∧ a.top ≤ b.bottom ∧ a.bottom ≥ b.top) := by
    unfold rect_intersect
    simp only [Bool.and_eq_true, decide_eq_true_eq, ge_iff_le]
    tauto
  refine ⟨h1, ?_, ?_⟩
  · intro ha hb hr ht hbt
    rw [h1]
    unfold rect_wf at ha hb
    omega
  · intro ha hb
    rw [h1]
    unfold rect_wf at ha hb
    unfold rect_has_pixel
    constructor
    · intro h
      refine ⟨max a.top b.top, max a.left b.left, ?_⟩
      omega
    · rintro ⟨py, px, h⟩
      omega

/-- Witness of C19: `{0,0,9,9}` and `{5,9,20,30}` touch in column 9. -/
theorem rect_intersect_inclusive_witness :
    rect_wf ⟨0, 0, 9, 9⟩ ∧ rect_wf ⟨5, 9, 20, 30⟩ ∧
    rect_intersect ⟨0, 0, 9, 9⟩ ⟨5, 9, 20, 30⟩ = true ∧
    ∃ py px, rect_has_pixel ⟨0, 0, 9, 9⟩ py px ∧ rect_has_pixel ⟨5, 9, 20, 30⟩ py px :=
  ⟨by decide, by decide,
    (rect_intersect_inclusive ⟨0, 0, 9, 9⟩ ⟨5, 9, 20, 30⟩).2.1 (by decide) (by decide) rfl
      (by decide) (by decide),
    ((rect_intersect_inclusive ⟨0, 0, 9, 9⟩ ⟨5, 9, 20, 30⟩).2.2 (by decide) (by decide)).mp
      (by decide)⟩

/-- C20: the subtraction equals its per-member definition.  On a list of fewer
than 2^30 members the loop ends by its own test (any fuel from
`rects.length` on gives the same list); the list it leaves is the strips of
the intersecting members followed by the members that miss the clip, these in
their original order; it is a permutation of `rect_subtract_spec`, the list
with every intersecting member replaced by its split. -/
theorem rect_subtract_clip_rect_per_member (rects : List rect_t) (clip : rect_t)
    (hcap : rects.length < 1073741824) :
    (∀ fuel, rects.length ≤ fuel →
      rect_subtract_clip_rect_loop clip fuel rects 0 = rect_subtract_clip_rect rects clip) ∧
    rect_subtract_clip_rect rects clip
      = ((rects.filter (fun m => rect_intersect m clip)).flatMap
          (fun m => rect_split_by m clip)).reverse
        ++ rects.filter (fun m => !rect_intersect m clip) ∧
    (rect_subtract_clip_rect rects clip).Perm (rect_subtract_spec rects clip) ∧
    (rects.filter (fun m => !rect_intersect m clip)).Sublist
      (rect_subtract_clip_rect rects clip) := by
  have hloop : ∀ fuel, rects.length ≤ fuel →
      rect_subtract_clip_rect_loop clip fuel rects 0 = rect_subtract_acc clip [] rects := by
    intro fuel hf
    have h := rect_subtract_clip_rect_loop_eq_acc clip fuel rects [] hf (by simp; omega)
    simpa using h
  have hres : rect_subtract_clip_rect rects clip
      = ((rects.filter (fun m => rect_intersect m clip)).flatMap
          (fun m => rect_split_by m clip)).reverse
        ++ rects.filter (fun m => !rect_intersect m clip) := by
    rw [rect_subtract_clip_rect_eq_acc rects clip hcap, rect_subtract_acc_closed]
    simp
  refine ⟨?_, hres, ?_, ?_⟩
  · intro fuel hf
    rw [hloop fuel hf, rect_subtract_clip_rect_eq_acc rects clip hcap]
  · rw [hres]
    exact rect_subtract_spec_perm clip rects
  · rw [hres]
    exact List.sublist_append_right _ _

/-- Witness of C20: the member at index 0 is inside the clip and yields no strip,
so the index wraps; the second member is kept and the third leaves two
strips. -/
theorem rect_subtract_clip_rect_per_member_witness :
    [(⟨0, 0, 9, 9⟩ : rect_t), ⟨50, 50, 60, 60⟩, ⟨20, 20, 45, 45⟩].length < 1073741824 ∧
    rect_subtract_clip_rect [⟨0, 0, 9, 9⟩, ⟨50, 50, 60, 60⟩, ⟨20, 20, 45, 45⟩] ⟨0, 0, 40, 40⟩
      = [⟨41, 20, 45, 40⟩, ⟨20, 41, 45, 45⟩, ⟨50, 50, 60, 60⟩] ∧
    (rect_subtract_clip_rect [⟨0, 0, 9, 9⟩, ⟨50, 50, 60, 60⟩, ⟨20, 20, 45, 45⟩]
      ⟨0, 0, 40, 40⟩).Perm
      (rect_subtract_spec [⟨0, 0, 9, 9⟩, ⟨50, 50, 60, 60⟩, ⟨20, 20, 45, 45⟩] ⟨0, 0, 40, 40⟩) :=
  ⟨by decide, by decide,
    (rect_subtract_clip_rect_per_member [⟨0, 0, 9, 9⟩, ⟨50, 50, 60, 60⟩, ⟨20, 20, 45, 45⟩]
      ⟨0, 0, 40, 40⟩ (by decide)).2.2.1⟩

/-- C21: the clamping does not keep the copied rectangle within the window.  For
a 10 x 10 window at the origin (rectangle `{0,0,9,9}`) the rectangle
`{0,0,10,9}` is copied as it is, on either side of the merge: the test is
`clip.bottom > y + height`, so row 10 is read from a kernel buffer of 10 rows;
`wm_draw_window` passes this rectangle for the damage `{0,0,10,9}`.  And the
strip `{0,21,5,60}`, which `wm_draw_window` cuts for the damage `{0,0,5,60}`
under a window above, is copied as `{0,21,5,9}`, with `left > right`. -/
theorem wm_partial_draw_window_exceeds_window :
    rect_from_window_val (window_at 0 0 0 0 10 10) = ⟨0, 0, 9, 9⟩ ∧
    wm_partial_draw_window (window_at 0 0 0 0 10 10) ⟨0, 0, 10, 9⟩ = ⟨0, 0, 10, 9⟩ ∧
    wm_partial_draw_window_HEAD (window_at 0 0 0 0 10 10) ⟨0, 0, 10, 9⟩ = ⟨0, 0, 10, 9⟩ ∧
    wm_draw_window [window_at 0 0 0 0 10 10] (window_at 0 0 0 0 10 10) ⟨0, 0, 10, 9⟩
      = [⟨0, 0, 10, 9⟩] ∧
    ¬ rect_within ⟨0, 0, 10, 9⟩ (rect_from_window_val (window_at 0 0 0 0 10 10)) ∧
    wm_partial_draw_window (window_at 0 0 0 0 10 10) ⟨0, 21, 5, 60⟩ = ⟨0, 21, 5, 9⟩ ∧
    wm_partial_draw_window_HEAD (window_at 0 0 0 0 10 10) ⟨0, 21, 5, 60⟩ = ⟨0, 21, 5, 10⟩ ∧
    wm_draw_window [window_at 0 0 0 0 10 10, window_at 1 0 5 0 16 10]
        (window_at 0 0 0 0 10 10) ⟨0, 0, 5, 60⟩
      = [⟨0, 21, 5, 9⟩, ⟨0, 0, 5, 4⟩] ∧
    ¬ rect_wf ⟨0, 21, 5, 9⟩ := by
  decide

/-- C22, as stated: a window above `win` that is not returned.  In a list of two
10 x 10 windows, the lower at the origin and the upper at column 50, row 50,
what `wm_get_windows_above` of the lower one returns is decided by the guard
at the upper one, and it is empty both for the overlap test that the comment
of the function documents and for the incoming call
`rect_intersect(&win_rect, &rect)` read word by word, at every address above
the bottom row 9 of the lower window. -/
theorem wm_get_windows_above_leaves_out :
    list_get_index_of [window_at 0 0 0 0 10 10, window_at 1 0 50 50 10 10]
      (window_at 0 0 0 0 10 10) = 0 ∧
    list_get_at [window_at 0 0 0 0 10 10, window_at 1 0 50 50 10 10] 1
      = some (window_at 1 0 50 50 10 10) ∧
    rect_from_window_val (window_at 0 0 0 0 10 10) = ⟨0, 0, 9, 9⟩ ∧
    (∀ test : Nat → wm_window_t → Bool,
      wm_get_windows_above_by test [window_at 0 0 0 0 10 10, window_at 1 0 50 50 10 10]
          (window_at 0 0 0 0 10 10)
        = if test 1 (window_at 1 0 50 50 10 10) then [window_at 1 0 50 50 10 10] else []) ∧
    wm_get_windows_above_by
        (fun _ next => rect_intersect (rect_from_window_val (window_at 0 0 0 0 10 10))
          (rect_from_window_val next))
        [window_at 0 0 0 0 10 10, window_at 1 0 50 50 10 10] (window_at 0 0 0 0 10 10) = [] ∧
    (∀ rect_ptr w1 w2 w3 : Nat,
      wm_get_windows_above_by
          (fun _ _ => wm_get_windows_above_guard_incoming ⟨0, 0, 9, 9⟩ (rect_ptr + 10) w1 w2 w3)
          [window_at 0 0 0 0 10 10, window_at 1 0 50 50 10 10] (window_at 0 0 0 0 10 10)
        = []) := by
  refine ⟨by decide, by decide, by decide, fun test => wm_get_windows_above_by_pair test _ _,
    by decide, ?_⟩
  intro rect_ptr w1 w2 w3
  rw [wm_get_windows_above_by_pair, wm_get_windows_above_guard_incoming_false]
  · rfl
  · show 9 < rect_ptr + 10
    omega

/-- C22, amended: for a window `win` of the list, at its index, and for every
value of the guard in the loop, `wm_get_windows_above` returns only windows at
a higher index (none at or below the index of `win`): exactly those at which
the guard holds, the highest index first.  It returns all the windows at a
higher index when the guard holds at each of them. -/
theorem wm_get_windows_above_guarded (test : Nat → wm_window_t → Bool)
    (windows : List wm_window_t) (win : wm_window_t) (h : win ∈ windows) :
    list_get_at windows (list_get_index_of windows win) = some win ∧
    wm_get_windows_above_by test windows win
      = ((((windows.drop (list_get_index_of windows win + 1)).enumFrom
            (list_get_index_of windows win + 1)).filter (fun p => test p.1 p.2)).map
          Prod.snd).reverse ∧
    (wm_get_windows_above_by test windows win).Sublist
      (windows.drop (list_get_index_of windows win + 1)).reverse ∧
    (∀ v, v ∈ wm_get_windows_above_by test windows win ↔
      ∃ j, list_get_index_of windows win < j ∧ list_get_at windows j = some v ∧
        test j v = true) ∧
    ((∀ j v, list_get_index_of windows win < j → list_get_at windows j = some v →
        test j v = true) →
      wm_get_windows_above_by test windows win
        = (windows.drop (list_get_index_of windows win + 1)).reverse) := by
  refine ⟨?_, wm_get_windows_above_by_eq test windows win,
    wm_get_windows_above_by_sublist test windows win,
    wm_get_windows_above_by_mem test windows win, ?_⟩
  · obtain ⟨pre, post, h1, _, h3⟩ := indexOf_split win windows h
    unfold list_get_index_of
    rw [h3, h1]
    exact get_at_middle pre post win
  · intro hall
    rw [wm_get_windows_above_by_eq]
    have hf : ((windows.drop (list_get_index_of windows win + 1)).enumFrom
          (list_get_index_of windows win + 1)).filter (fun p => test p.1 p.2)
        = (windows.drop (list_get_index_of windows win + 1)).enumFrom
          (list_get_index_of windows win + 1) := by
      rw [List.filter_eq_self]
      rintro ⟨j, v⟩ hm
      rw [mem_enumFrom_drop] at hm
      exact hall j v (by omega) hm.2
    rw [hf, List.enumFrom_map_snd]

/-- Witness of C22: with three windows above, what is returned is taken from
these three, the highest index first, for every value of the guard. -/
theorem wm_get_windows_above_guarded_witness :
    window_at 0 0 0 0 10 10 ∈
      [window_at 0 0 0 0 10 10, window_at 1 0 50 50 10 10, window_at 2 0 5 5 10 10,
       window_at 3 0 0 0 3 3] ∧
    ∀ test : Nat → wm_window_t → Bool,
      (wm_get_windows_above_by test
        [window_at 0 0 0 0 10 10, window_at 1 0 50 50 10 10, window_at 2 0 5 5 10 10,
         window_at 3 0 0 0 3 3] (window_at 0 0 0 0 10 10)).Sublist
        [window_at 3 0 0 0 3 3, window_at 2 0 5 5 10 10, window_at 1 0 50 50 10 10] :=
  ⟨by decide, fun test =>
    (wm_get_windows_above_guarded test
      [window_at 0 0 0 0 10 10, window_at 1 0 50 50 10 10, window_at 2 0 5 5 10 10,
       window_at 3 0 0 0 3 3] (window_at 0 0 0 0 10 10) (by decide)).2.2.1⟩

/-- C23: split soundness.  For a well-formed `original` and any `cut`,
`rect_split_by` returns at most four rectangles; each is well formed, lies
within `original` and does not intersect `cut`; they are pairwise
non-intersecting; and the subtractions `split.left - 1` and `split.top - 1`
are made only under a test that makes the operand positive, so they do not
wrap. -/
theorem rect_split_by_sound (original cut : rect_t) (hwf : rect_wf original) :
    (rect_split_by original cut).length ≤ 4 ∧
    (∀ p ∈ rect_split_by original cut,
      rect_wf p ∧ rect_within p original ∧ rect_intersect p cut = false ∧
      rect_intersect cut p = false) ∧
    (rect_split_by original cut).Pairwise (fun a b => rect_intersect a b = false) ∧
    (cut.left > original.left → cut.left - 1 + 1 = cut.left) ∧
    (cut.top > original.top → cut.top - 1 + 1 = cut.top) := by
  refine ⟨rect_split_by_length_le original cut, ?_, rect_split_by_pairwise original cut, ?_, ?_⟩
  · intro p hp
    have h := rect_split_by_mem original cut p hp
    exact ⟨h.2.2 hwf, h.1, h.2.1, by rw [rect_intersect_comm]; exact h.2.1⟩
  · intro h
    omega
  · intro h
    omega

/-- Witness of C23: a cut strictly inside the original. -/
theorem rect_split_by_sound_witness :
    rect_wf ⟨0, 0, 19, 19⟩ ∧
    (rect_split_by ⟨0, 0, 19, 19⟩ ⟨5, 5, 9, 9⟩).length ≤ 4 ∧
    (rect_split_by ⟨0, 0, 19, 19⟩ ⟨5, 5, 9, 9⟩).Pairwise
      (fun a b => rect_intersect a b = false) :=
  ⟨by decide,
    (rect_split_by_sound ⟨0, 0, 19, 19⟩ ⟨5, 5, 9, 9⟩ (by decide)).1,
    (rect_split_by_sound ⟨0, 0, 19, 19⟩ ⟨5, 5, 9, 9⟩ (by decide)).2.2.1⟩

end SnowflakeOS
